import Mathlib

/-!
Shallow embedding of `src/loan_engine.py` (loan amortization engine).

Modelling conventions:
* Python `float` money/rate values are embedded as exact rationals `ℚ`;
  "within floating tolerance" claims are settled as exact identities.
* Python `date` objects are a `Date` structure (proleptic Gregorian);
  `date` subtraction is the difference of day numbers.
* Python `int` is `ℤ` at the facade boundary (where non-positive inputs are
  validated away) and `ℕ` inside the generators (which only ever receive
  validated positive counts; the deferral count is clamped through `Int.toNat`,
  which agrees with the source since `i <= deferred_periods` is false for every
  `i >= 1` when the deferral is non-positive, and `n_payments` applies
  `max(0, deferred_periods // payment_step)` explicitly).
* The summary dict is `Option Summary` (`none` embeds the empty dict `{}`);
  dict keys that a given generator does not write are `Option` fields left
  `none`.  The source also stores `summary["taeg"] = compute_taeg(...)`; the
  embedding keeps that value as the separate function `computeTaeg` applied to
  the same arguments, so that the schedule part of the engine stays computable
  (the IRR solver needs real-number exponentiation).
* The IRR solver (`_npv_rate_with_dates`, `_irr_bisection_with_dates`,
  `compute_taeg`) is embedded over `ℝ`; the float `nan` sentinel is `none`
  of an `Option ℝ`, and Python's unbounded loops are already fuel-bounded in
  the source (12 doublings, 200 bisection steps).
-/

namespace LoanEngine

/-- Calendar date (proleptic Gregorian), embedding Python `datetime.date`. -/
structure Date where
  year : ℤ
  month : ℕ
  day : ℕ
deriving DecidableEq

instance : Inhabited Date := ⟨⟨1970, 1, 1⟩⟩

/-- Gregorian leap-year predicate, embedding `calendar.isleap`. -/
def isLeap (y : ℤ) : Bool :=
  y % 4 = 0 ∧ (y % 100 ≠ 0 ∨ y % 400 = 0)

/-- Number of days of month `m` of year `y`, embedding `calendar.monthrange(y, m)[1]`. -/
def monthLength (y : ℤ) (m : ℕ) : ℕ :=
  if m = 2 then (if isLeap y then 29 else 28)
  else if m = 4 ∨ m = 6 ∨ m = 9 ∨ m = 11 then 30
  else 31

/-- Embeds `_add_months` (src/loan_engine.py lines 37-43).  Lean's `/` and `%`
on `ℤ` are Euclidean, which coincides with Python's floor division for the
positive divisor 12. -/
def addMonths (d : Date) (months : ℤ) : Date :=
  let y : ℤ := d.year + ((d.month : ℤ) - 1 + months) / 12
  let m : ℤ := ((d.month : ℤ) - 1 + months) % 12 + 1
  let lastDay : ℕ := monthLength y m.toNat
  ⟨y, m.toNat, min d.day lastDay⟩

/-- Day number of a date counted from 1970-01-01 (Howard Hinnant's
`days_from_civil`); embeds `date.toordinal` up to a constant offset, which
cancels in every difference the engine takes. -/
def dayNumber (d : Date) : ℤ :=
  let y : ℤ := if d.month ≤ 2 then d.year - 1 else d.year
  let era : ℤ := y / 400
  let yoe : ℤ := y - era * 400
  let mp : ℤ := ((d.month : ℤ) + 9) % 12
  let doy : ℤ := (153 * mp + 2) / 5 + (d.day : ℤ) - 1
  let doe : ℤ := yoe * 365 + yoe / 4 - yoe / 100 + doy
  era * 146097 + doe - 719468

/-- Embeds `_days_between` (src/loan_engine.py lines 46-47): `(d2 - d1).days`. -/
def daysBetween (d1 d2 : Date) : ℤ :=
  dayNumber d2 - dayNumber d1

/-- Mode tag, src/loan_engine.py line 13. -/
def TYPE_IN_FINE : String := "IN_FINE"

/-- Mode tag, src/loan_engine.py line 14. -/
def TYPE_CONSTANT_AMORTIZATION : String := "CONSTANT_AMORTIZATION"

/-- Mode tag, src/loan_engine.py line 15. -/
def TYPE_ANNUITY : String := "ANNUITY"

/-- Day-count tag, src/loan_engine.py line 20. -/
def BASE_MENSUELLE_12 : String := "BASE_12"

/-- Day-count tag, src/loan_engine.py line 21. -/
def BASE_360 : String := "BASE_360"

/-- Embeds the `ScheduleRow` dataclass (src/loan_engine.py lines 24-31). -/
structure ScheduleRow where
  period : ℕ
  date : Date
  payment : ℚ
  interest : ℚ
  principal : ℚ
  balance : ℚ
deriving DecidableEq

/-- Embeds the summary dict a generator returns (shared keys plus the
annuity-only keys, `none` when the generator does not write the key).  The
`taeg` key is kept as the separate function `computeTaeg`, see the file
header. -/
structure Summary where
  totalPayment : ℚ
  totalInterest : ℚ
  totalPrincipal : ℚ
  feeAmount : ℚ
  paymentConst : Option ℚ
  flatFlag : Option Bool
  interestFrequencyMonths : Option ℚ
  paymentFrequencyMonths : Option ℚ
  deferredPeriods : Option ℚ
deriving DecidableEq

/-- The argument bundle every generator receives (the positional parameters of
`_schedule_in_fine` / `_schedule_constant_amortization` / `_schedule_annuity`;
`flat` is only read by the annuity generator). -/
structure GenParams where
  amount : ℚ
  annualRate : ℚ
  periodCount : ℕ
  payFreqM : ℕ
  intFreqM : ℕ
  deferredPeriods : ℕ
  flat : Bool
  base : String
  disb : Date
  first : Date
  feeAmount : ℚ
deriving DecidableEq

/-- `n_interest = max(1, period_count // interest_freq_m)` (lines 267, 352, 460). -/
def GenParams.nInterest (p : GenParams) : ℕ :=
  max 1 (p.periodCount / p.intFreqM)

/-- `payment_step = max(1, payment_freq_m // interest_freq_m)` (lines 268, 353, 461). -/
def GenParams.paymentStep (p : GenParams) : ℕ :=
  max 1 (p.payFreqM / p.intFreqM)

/-- `n_payments = max(1, period_count // payment_freq_m - max(0, deferred // payment_step))`
(lines 356, 463); `ℕ` subtraction truncates at 0 exactly like the outer
`max(1, ...)` absorbs a negative Python difference. -/
def GenParams.nPayments (p : GenParams) : ℕ :=
  max 1 (p.periodCount / p.payFreqM - p.deferredPeriods / p.paymentStep)

/-- `_rate_base12` (lines 140-141). -/
def rateBase12 (annualRate : ℚ) (frequencyMonths : ℕ) : ℚ :=
  annualRate * frequencyMonths / 12

/-- `_rate_equiv_360` (lines 144-146). -/
def rateEquiv360 (annualRate : ℚ) (frequencyMonths : ℕ) : ℚ :=
  annualRate * frequencyMonths * 30.478 / 360

/-- Embeds `_interest_amount` (lines 149-179). -/
def interestAmount (balance annualRate : ℚ) (base : String) (periodIndex : ℕ)
    (currentDate : Date) (prevDate : Option Date) (disbursementDate : Date)
    (frequencyMonths : ℕ) : ℚ :=
  if balance ≤ 0 then 0
  else if base = BASE_MENSUELLE_12 then balance * rateBase12 annualRate frequencyMonths
  else
    let daily := annualRate / 360
    let days : ℤ :=
      if periodIndex = 1 then daysBetween disbursementDate currentDate
      else
        match prevDate with
        | some pd => daysBetween pd currentDate
        | none => daysBetween (addMonths currentDate (-(frequencyMonths : ℤ))) currentDate
    balance * daily * ((max days 0 : ℤ) : ℚ)

/-- `_annuity_payment` (lines 429-434); `pow(1 + r, -n)` is `zpow` on `ℚ`. -/
def annuityPayment (P r : ℚ) (n : ℕ) : ℚ :=
  if n = 0 then 0
  else if |r| < 1e-12 then P / n
  else (P * r) / (1 - (1 + r) ^ (-(n : ℤ)))

/-- The annuity installment `payment_const` (lines 466-471). -/
def annuityPaymentConst (p : GenParams) : ℚ :=
  let rPay := if p.base = BASE_MENSUELLE_12 then rateBase12 p.annualRate p.payFreqM
              else rateEquiv360 p.annualRate p.payFreqM
  annuityPayment p.amount rPay p.nPayments

/-- The mutable state threaded through a generator's period loop.  `closShort`
is proof instrumentation only: it accumulates the interest shortfall that the
annuity generator leaves in `carry_interest` at its closing payment event
(lines 511-519 run the shortfall branch before the closing override); it feeds
no row, total or summary field. -/
structure LoopState where
  balance : ℚ
  carry : ℚ
  payCount : ℕ
  current : Date
  prevDate : Option Date
  totalPayment : ℚ
  totalInterest : ℚ
  totalPrincipal : ℚ
  closShort : ℚ
  rows : List ScheduleRow
deriving DecidableEq

/-- Loop state before the first period (lines 263-273 / 349-365 / 457-478). -/
def initState (p : GenParams) : LoopState :=
  ⟨p.amount, 0, 0, p.first, none, 0, 0, 0, 0, []⟩

/-- The common tail of every loop body (lines 308-316 / 406-414 / 528-536):
clamp the balance, append the row, bump the running totals, advance the dates.
The mode-specific updates of `carry` / `payCount` are applied by the caller
before this. -/
def emitRow (p : GenParams) (s : LoopState) (i : ℕ)
    (payment interest principal : ℚ) : LoopState :=
  let balance' := max 0 (s.balance - principal)
  { balance := balance'
    carry := s.carry
    payCount := s.payCount
    current := addMonths s.current (p.intFreqM : ℤ)
    prevDate := some s.current
    totalPayment := s.totalPayment + payment
    totalInterest := s.totalInterest + interest
    totalPrincipal := s.totalPrincipal + principal
    closShort := s.closShort
    rows := s.rows ++ [⟨i, s.current, payment, interest, principal, balance'⟩] }

/-- One period of `_schedule_in_fine` (lines 275-316). -/
def inFineStep (p : GenParams) (s : LoopState) (i : ℕ) : LoopState :=
  if i ≤ p.deferredPeriods then emitRow p s i 0 0 0
  else
    let interest := interestAmount s.balance p.annualRate p.base i s.current s.prevDate
      p.disb p.intFreqM
    if i % p.paymentStep = 0 then
      let principal := if i = p.nInterest then s.balance else 0
      emitRow p s i (interest + principal) interest principal
    else
      emitRow p s i interest interest 0

/-- One period of `_schedule_constant_amortization` (lines 367-414). -/
def amortStep (p : GenParams) (s : LoopState) (i : ℕ) : LoopState :=
  if i ≤ p.deferredPeriods then emitRow p s i 0 0 0
  else
    let interest := interestAmount s.balance p.annualRate p.base i s.current s.prevDate
      p.disb p.intFreqM
    if i % p.paymentStep = 0 then
      let payCount' := s.payCount + 1
      let interestTotal := interest + s.carry
      let principal := if payCount' = p.nPayments then s.balance
                       else p.amount / (p.nPayments : ℚ)
      emitRow p { s with carry := 0, payCount := payCount' } i
        (principal + interestTotal) interest principal
    else
      emitRow p { s with carry := s.carry + interest } i 0 interest 0

/-- One period of `_schedule_annuity` (lines 480-536). -/
def annuityStep (p : GenParams) (s : LoopState) (i : ℕ) : LoopState :=
  if i ≤ p.deferredPeriods then emitRow p s i 0 0 0
  else
    let baseBalanceForInterest := if p.flat then p.amount else s.balance
    let interest := interestAmount baseBalanceForInterest p.annualRate p.base i s.current
      s.prevDate p.disb p.intFreqM
    if i % p.paymentStep = 0 then
      let payCount' := s.payCount + 1
      let interestTotal := interest + s.carry
      let pconst := annuityPaymentConst p
      let carry' := if pconst < interestTotal then interestTotal - pconst else 0
      let closing := payCount' = p.nPayments
      let payment := if closing then s.balance + interestTotal else pconst
      let principal := if closing then s.balance
                       else if pconst < interestTotal then 0 else pconst - interestTotal
      let short := if closing ∧ pconst < interestTotal then interestTotal - pconst else 0
      emitRow p { s with carry := carry', payCount := payCount',
                         closShort := s.closShort + short } i payment interest principal
    else
      emitRow p { s with carry := s.carry + interest } i 0 interest 0

/-- `for i in range(1, k + 1)` folding a loop body over the state. -/
def genRunTo (f : LoopState → ℕ → LoopState) (s0 : LoopState) (k : ℕ) : LoopState :=
  (List.range' 1 k).foldl f s0

/-- State of the in-fine loop after `k` periods. -/
def inFineRunTo (p : GenParams) (k : ℕ) : LoopState :=
  genRunTo (inFineStep p) (initState p) k

/-- Final state of the in-fine loop. -/
def inFineRun (p : GenParams) : LoopState :=
  inFineRunTo p p.nInterest

/-- State of the constant-amortization loop after `k` periods. -/
def amortRunTo (p : GenParams) (k : ℕ) : LoopState :=
  genRunTo (amortStep p) (initState p) k

/-- Final state of the constant-amortization loop. -/
def amortRun (p : GenParams) : LoopState :=
  amortRunTo p p.nInterest

/-- State of the annuity loop after `k` periods. -/
def annuityRunTo (p : GenParams) (k : ℕ) : LoopState :=
  genRunTo (annuityStep p) (initState p) k

/-- Final state of the annuity loop. -/
def annuityRun (p : GenParams) : LoopState :=
  annuityRunTo p p.nInterest

/-- Embeds `_schedule_in_fine` (lines 244-325): rows plus the summary dict
(keys `total_payment`, `total_interest`, `total_principal`, `fee_amount`). -/
def scheduleInFine (p : GenParams) : List ScheduleRow × Summary :=
  let s := inFineRun p
  (s.rows, ⟨s.totalPayment, s.totalInterest, s.totalPrincipal, p.feeAmount,
    none, none, none, none, none⟩)

/-- Embeds `_schedule_constant_amortization` (lines 331-423). -/
def scheduleConstantAmortization (p : GenParams) : List ScheduleRow × Summary :=
  let s := amortRun p
  (s.rows, ⟨s.totalPayment, s.totalInterest, s.totalPrincipal, p.feeAmount,
    none, none, none, none, none⟩)

/-- Embeds `_schedule_annuity` (lines 437-550); its summary additionally
carries `payment_const`, `flat`, the two frequencies and the deferral count
(lines 538-548). -/
def scheduleAnnuity (p : GenParams) : List ScheduleRow × Summary :=
  let s := annuityRun p
  (s.rows, ⟨s.totalPayment, s.totalInterest, s.totalPrincipal, p.feeAmount,
    some (annuityPaymentConst p), some p.flat, some (p.intFreqM : ℚ),
    some (p.payFreqM : ℚ), some (p.deferredPeriods : ℚ)⟩)

/-- Embeds the facade `build_schedule` (lines 185-238): validations, then
dispatch on the mode string; `([], none)` embeds the `([], {})` returns. -/
def buildSchedule (repaymentType : String) (amount annualRate : ℚ)
    (periodCount paymentFrequencyMonths : ℤ) (base : String) (disb first : Date)
    (interestFrequencyMonths deferredPeriods : ℤ) (flat : Bool) (feeAmount : ℚ) :
    List ScheduleRow × Option Summary :=
  if amount ≤ 0 ∨ annualRate < 0 ∨ periodCount ≤ 0 then ([], none)
  else if paymentFrequencyMonths ≤ 0 ∨ interestFrequencyMonths ≤ 0 then ([], none)
  else
    let p : GenParams := ⟨amount, annualRate, periodCount.toNat,
      paymentFrequencyMonths.toNat, interestFrequencyMonths.toNat,
      deferredPeriods.toNat, flat, base, disb, first, feeAmount⟩
    if repaymentType = TYPE_IN_FINE then
      ((scheduleInFine p).1, some (scheduleInFine p).2)
    else if repaymentType = TYPE_CONSTANT_AMORTIZATION then
      ((scheduleConstantAmortization p).1, some (scheduleConstantAmortization p).2)
    else if repaymentType = TYPE_ANNUITY then
      ((scheduleAnnuity p).1, some (scheduleAnnuity p).2)
    else ([], none)

end LoanEngine

/-!  ## Generic loop lemmas  -/

namespace LoanEngine

theorem genRunTo_zero (f : LoopState → ℕ → LoopState) (s0 : LoopState) :
    genRunTo f s0 0 = s0 := rfl

theorem genRunTo_succ (f : LoopState → ℕ → LoopState) (s0 : LoopState) (k : ℕ) :
    genRunTo f s0 (k + 1) = f (genRunTo f s0 k) (k + 1) := by
  unfold genRunTo
  rw [List.range'_concat, List.foldl_append]
  simp [Nat.add_comm]

theorem genRunTo_induction (f : LoopState → ℕ → LoopState) (s0 : LoopState)
    (P : ℕ → LoopState → Prop) (h0 : P 0 s0)
    (hs : ∀ k s, P k s → P (k + 1) (f s (k + 1))) :
    ∀ k, P k (genRunTo f s0 k) := by
  intro k
  induction k with
  | zero => exact h0
  | succ n ih =>
    rw [genRunTo_succ]
    exact hs n _ ih

end LoanEngine

/-!  ## C9 — calendar arithmetic  -/

namespace LoanEngine

/-- C9: `_add_months(d, n)` advances `d` by `n` calendar months — the target
year and month satisfy the linearization `12*year' + month' = 12*year + month + n`
— and the day-of-month is clamped to the target month's last valid day; in
particular 2024-01-31 + 1 month = 2024-02-29 (leap year) and
2025-01-31 + 1 month = 2025-02-28. -/
theorem addMonths_adds_calendar_months :
    (∀ (d : Date) (n : ℤ),
      (addMonths d n).year * 12 + ((addMonths d n).month : ℤ) =
        d.year * 12 + (d.month : ℤ) + n ∧
      (addMonths d n).day =
        min d.day (monthLength (addMonths d n).year (addMonths d n).month)) ∧
    addMonths ⟨2024, 1, 31⟩ 1 = ⟨2024, 2, 29⟩ ∧
    addMonths ⟨2025, 1, 31⟩ 1 = ⟨2025, 2, 28⟩ := by
  refine ⟨fun d n => ?_, by decide, by decide⟩
  have h12 : (12 : ℤ) ≠ 0 := by norm_num
  have hmod : (0 : ℤ) ≤ ((d.month : ℤ) - 1 + n) % 12 :=
    Int.emod_nonneg _ h12
  constructor
  · show (d.year + ((d.month : ℤ) - 1 + n) / 12) * 12 +
      (((((d.month : ℤ) - 1 + n) % 12 + 1)).toNat : ℤ) = _
    rw [Int.toNat_of_nonneg (by linarith)]
    have := Int.ediv_add_emod ((d.month : ℤ) - 1 + n) 12
    ring_nf
    ring_nf at this
    linarith
  · rfl

end LoanEngine

/-!  ## C5 — facade validation  -/

namespace LoanEngine

/-- C5: on malformed input (`amount <= 0`, `annual_rate < 0`,
`period_count <= 0`, either frequency `<= 0`), `build_schedule` returns the
empty row list and the empty summary (embedded as `none`); it is a total
function, so no exception can be raised. -/
theorem buildSchedule_invalid_input_empty (repaymentType : String)
    (amount annualRate : ℚ) (periodCount paymentFrequencyMonths : ℤ)
    (base : String) (disb first : Date)
    (interestFrequencyMonths deferredPeriods : ℤ) (flat : Bool) (feeAmount : ℚ)
    (h : amount ≤ 0 ∨ annualRate < 0 ∨ periodCount ≤ 0 ∨
      paymentFrequencyMonths ≤ 0 ∨ interestFrequencyMonths ≤ 0) :
    buildSchedule repaymentType amount annualRate periodCount
      paymentFrequencyMonths base disb first interestFrequencyMonths
      deferredPeriods flat feeAmount = ([], none) := by
  unfold buildSchedule
  split_ifs <;> first | rfl | tauto

/-- Witness for C5 at a concrete malformed input (`amount = 0`). -/
theorem buildSchedule_invalid_input_empty_witness :
    ((0 : ℚ) ≤ 0 ∨ (0 : ℚ) < 0 ∨ (12 : ℤ) ≤ 0 ∨ (1 : ℤ) ≤ 0 ∨ (1 : ℤ) ≤ 0) ∧
    buildSchedule TYPE_IN_FINE 0 0 12 1 BASE_MENSUELLE_12 ⟨2025, 1, 1⟩
      ⟨2025, 2, 1⟩ 1 0 false 0 = ([], none) :=
  ⟨by norm_num,
    buildSchedule_invalid_input_empty TYPE_IN_FINE 0 0 12 1 BASE_MENSUELLE_12
      ⟨2025, 1, 1⟩ ⟨2025, 2, 1⟩ 1 0 false 0 (by norm_num)⟩

end LoanEngine

/-!  ## Step characterization shared by the three generators  -/

namespace LoanEngine

/-- A loop body appends exactly one row per period: the row is dated at the
incoming state's reference date, its balance is the clamped
`max 0 (balance - principal)`, which also becomes the new state balance, and
the principal it moves is non-negative (given non-negative state balance and
loan amount `a`). -/
def StepEmits (a : ℚ) (f : LoopState → ℕ → LoopState) : Prop :=
  ∀ s i, ∃ r : ScheduleRow,
    (f s i).rows = s.rows ++ [r] ∧
    r.period = i ∧
    r.date = s.current ∧
    r.balance = max 0 (s.balance - r.principal) ∧
    (f s i).balance = r.balance ∧
    (0 ≤ s.balance → 0 ≤ a → 0 ≤ r.principal)

theorem inFineStep_stepEmits (p : GenParams) : StepEmits p.amount (inFineStep p) := by
  intro s i
  unfold inFineStep emitRow
  split_ifs <;>
    exact ⟨_, rfl, rfl, rfl, rfl, rfl, fun hb ha => by
      dsimp only
      first
      | (split_ifs <;> first
          | exact le_rfl
          | exact hb
          | exact div_nonneg ha (Nat.cast_nonneg _)
          | exact sub_nonneg.2 (not_lt.1 (by assumption)))
      | exact le_rfl
      | exact hb
      | exact div_nonneg ha (Nat.cast_nonneg _)
      | exact sub_nonneg.2 (not_lt.1 (by assumption))⟩

theorem amortStep_stepEmits (p : GenParams) : StepEmits p.amount (amortStep p) := by
  intro s i
  unfold amortStep emitRow
  split_ifs <;>
    exact ⟨_, rfl, rfl, rfl, rfl, rfl, fun hb ha => by
      dsimp only
      first
      | (split_ifs <;> first
          | exact le_rfl
          | exact hb
          | exact div_nonneg ha (Nat.cast_nonneg _)
          | exact sub_nonneg.2 (not_lt.1 (by assumption)))
      | exact le_rfl
      | exact hb
      | exact div_nonneg ha (Nat.cast_nonneg _)
      | exact sub_nonneg.2 (not_lt.1 (by assumption))⟩

theorem annuityStep_stepEmits (p : GenParams) : StepEmits p.amount (annuityStep p) := by
  intro s i
  unfold annuityStep emitRow
  split_ifs <;>
    exact ⟨_, rfl, rfl, rfl, rfl, rfl, fun hb ha => by
      dsimp only
      first
      | (split_ifs <;> first
          | exact le_rfl
          | exact hb
          | exact div_nonneg ha (Nat.cast_nonneg _)
          | exact sub_nonneg.2 (not_lt.1 (by assumption)))
      | exact le_rfl
      | exact hb
      | exact div_nonneg ha (Nat.cast_nonneg _)
      | exact sub_nonneg.2 (not_lt.1 (by assumption))⟩

/-- Each generator emits exactly `k` rows in `k` periods. -/
theorem run_rows_length {a : ℚ} {f : LoopState → ℕ → LoopState}
    (hf : StepEmits a f) (s0 : LoopState) (h0 : s0.rows = []) :
    ∀ k, (genRunTo f s0 k).rows.length = k := by
  refine genRunTo_induction f s0 (fun k s => s.rows.length = k) (by simp [h0]) ?_
  intro k s hk
  obtain ⟨r, hr, -, -, -, -, -⟩ := hf s (k + 1)
  simp [hr, hk]

end LoanEngine

/-!  ## C8 — balance recurrence and monotonicity  -/

namespace LoanEngine

/-- The spec's row-to-row invariant: `balance_i = max(0, balance_{i-1} - principal_i)`. -/
def balanceRecurrence (a b : ScheduleRow) : Prop :=
  b.balance = max 0 (a.balance - b.principal)

/-- A virtual row holding the pre-schedule balance (the loan amount). -/
def seedRow (amount : ℚ) (disb : Date) : ScheduleRow :=
  ⟨0, disb, 0, 0, 0, amount⟩

/-- The strengthened chain relation used in the loop invariant. -/
def balStrong (a b : ScheduleRow) : Prop :=
  b.balance = max 0 (a.balance - b.principal) ∧
  0 ≤ b.principal ∧ 0 ≤ a.balance ∧ 0 ≤ b.balance

/-- Loop invariant behind C8. -/
def C8Inv (p : GenParams) (s : LoopState) : Prop :=
  0 ≤ s.balance ∧
  (∃ x, (seedRow p.amount p.disb :: s.rows).getLast? = some x ∧
    x.balance = s.balance) ∧
  List.Chain' balStrong (seedRow p.amount p.disb :: s.rows) ∧
  ∀ r ∈ s.rows, 0 ≤ r.balance

theorem run_c8_inv (p : GenParams) {f : LoopState → ℕ → LoopState}
    (hf : StepEmits p.amount f) (ha : 0 ≤ p.amount) :
    ∀ k, C8Inv p (genRunTo f (initState p) k) := by
  refine genRunTo_induction f (initState p) (fun _ s => C8Inv p s) ?_ ?_
  · exact ⟨ha, ⟨seedRow p.amount p.disb, rfl, rfl⟩, List.chain'_singleton _,
      by intro r hr; simp [initState] at hr⟩
  · rintro k s ⟨hb, ⟨x, hx, hxb⟩, hchain, hmem⟩
    obtain ⟨r, hrows, -, -, hrbal, hsbal, hprin⟩ := hf s (k + 1)
    have hprin' := hprin hb ha
    have hrb : 0 ≤ r.balance := by rw [hrbal]; exact le_max_left _ _
    have hrel : balStrong x r := by
      refine ⟨?_, hprin', ?_, hrb⟩
      · rw [hrbal, hxb]
      · rw [hxb]; exact hb
    have hcons : seedRow p.amount p.disb :: (f s (k + 1)).rows =
        (seedRow p.amount p.disb :: s.rows) ++ [r] := by
      simp [hrows]
    refine ⟨by rw [hsbal]; exact hrb, ?_, ?_, ?_⟩
    · refine ⟨r, ?_, hsbal.symm⟩
      rw [hcons]
      exact List.getLast?_concat _
    · rw [hcons, List.chain'_append]
      refine ⟨hchain, List.chain'_singleton _, ?_⟩
      intro y hy z hz
      rw [hx] at hy
      have hy' : y = x := by simpa using hy.symm
      have hz' : z = r := by simpa using hz.symm
      rw [hy', hz']
      exact hrel
    · intro r' hr'
      rw [hrows] at hr'
      rcases List.mem_append.1 hr' with h | h
      · exact hmem r' h
      · simp at h
        rw [h]
        exact hrb

/-- From the strengthened chain, the claim's three conclusions. -/
theorem balStrong_consequences (amount : ℚ) (disb : Date)
    (rows : List ScheduleRow)
    (hchain : List.Chain' balStrong (seedRow amount disb :: rows)) :
    List.Chain' balanceRecurrence (seedRow amount disb :: rows) ∧
    List.Pairwise (fun a b => b.balance ≤ a.balance)
      (seedRow amount disb :: rows) := by
  letI : IsTrans ScheduleRow (fun a b => b.balance ≤ a.balance) :=
    ⟨fun _ _ _ h1 h2 => le_trans h2 h1⟩
  refine ⟨hchain.imp fun a b h => h.1, ?_⟩
  rw [← List.chain'_iff_pairwise]
  refine hchain.imp fun a b h => ?_
  calc b.balance = max 0 (a.balance - b.principal) := h.1
    _ ≤ max 0 a.balance := max_le_max le_rfl (sub_le_self _ h.2.1)
    _ = a.balance := max_eq_right h.2.2.1

/-- C8: for every input and every repayment mode, each row's balance emitted by
`build_schedule` equals `max(0, previous balance - principal)` — with the loan
amount as the balance before the first row (the seed) — so the balance
sequence is non-negative and monotonically non-increasing across the whole
schedule. -/
theorem buildSchedule_balance_recurrence (repaymentType : String)
    (amount annualRate : ℚ) (periodCount paymentFrequencyMonths : ℤ)
    (base : String) (disb first : Date)
    (interestFrequencyMonths deferredPeriods : ℤ) (flat : Bool) (feeAmount : ℚ) :
    List.Chain' balanceRecurrence
      (seedRow amount disb ::
        (buildSchedule repaymentType amount annualRate periodCount
          paymentFrequencyMonths base disb first interestFrequencyMonths
          deferredPeriods flat feeAmount).1) ∧
    List.Pairwise (fun a b => b.balance ≤ a.balance)
      (seedRow amount disb ::
        (buildSchedule repaymentType amount annualRate periodCount
          paymentFrequencyMonths base disb first interestFrequencyMonths
          deferredPeriods flat feeAmount).1) ∧
    ∀ r ∈ (buildSchedule repaymentType amount annualRate periodCount
      paymentFrequencyMonths base disb first interestFrequencyMonths
      deferredPeriods flat feeAmount).1, 0 ≤ r.balance := by
  unfold buildSchedule
  split_ifs with h1 h2 h3 h4 h5
  · exact ⟨List.chain'_singleton _, List.pairwise_singleton _ _, by simp⟩
  · exact ⟨List.chain'_singleton _, List.pairwise_singleton _ _, by simp⟩
  · push_neg at h1
    have ha : 0 ≤ amount := le_of_lt h1.1
    obtain ⟨-, -, hchain, hmem⟩ :=
      run_c8_inv ⟨amount, annualRate, periodCount.toNat,
        paymentFrequencyMonths.toNat, interestFrequencyMonths.toNat,
        deferredPeriods.toNat, flat, base, disb, first, feeAmount⟩
        (inFineStep_stepEmits _) ha
        (GenParams.nInterest ⟨amount, annualRate, periodCount.toNat,
          paymentFrequencyMonths.toNat, interestFrequencyMonths.toNat,
          deferredPeriods.toNat, flat, base, disb, first, feeAmount⟩)
    obtain ⟨hc, hp⟩ := balStrong_consequences amount disb _ hchain
    exact ⟨hc, hp, hmem⟩
  · push_neg at h1
    have ha : 0 ≤ amount := le_of_lt h1.1
    obtain ⟨-, -, hchain, hmem⟩ :=
      run_c8_inv ⟨amount, annualRate, periodCount.toNat,
        paymentFrequencyMonths.toNat, interestFrequencyMonths.toNat,
        deferredPeriods.toNat, flat, base, disb, first, feeAmount⟩
        (amortStep_stepEmits _) ha
        (GenParams.nInterest ⟨amount, annualRate, periodCount.toNat,
          paymentFrequencyMonths.toNat, interestFrequencyMonths.toNat,
          deferredPeriods.toNat, flat, base, disb, first, feeAmount⟩)
    obtain ⟨hc, hp⟩ := balStrong_consequences amount disb _ hchain
    exact ⟨hc, hp, hmem⟩
  · push_neg at h1
    have ha : 0 ≤ amount := le_of_lt h1.1
    obtain ⟨-, -, hchain, hmem⟩ :=
      run_c8_inv ⟨amount, annualRate, periodCount.toNat,
        paymentFrequencyMonths.toNat, interestFrequencyMonths.toNat,
        deferredPeriods.toNat, flat, base, disb, first, feeAmount⟩
        (annuityStep_stepEmits _) ha
        (GenParams.nInterest ⟨amount, annualRate, periodCount.toNat,
          paymentFrequencyMonths.toNat, interestFrequencyMonths.toNat,
          deferredPeriods.toNat, flat, base, disb, first, feeAmount⟩)
    obtain ⟨hc, hp⟩ := balStrong_consequences amount disb _ hchain
    exact ⟨hc, hp, hmem⟩
  · exact ⟨List.chain'_singleton _, List.pairwise_singleton _ _, by simp⟩

end LoanEngine

/-!  ## Effective-rate solver (embedded over `ℝ`)  -/

namespace LoanEngine

/-- Embeds `_npv_rate_with_dates` (lines 49-60):
`sum(CF_k / (1+rate)^(days_k/basis))` with `days_k` counted from `dates[0]`.
The source returns float `inf` when `rate <= -0.999999`; that guard is dead
code for every rate this file ever passes (all lie in `[0, 5 * 2^12]`), and the
embedding returns `0` there since `ℝ` has no infinity. -/
noncomputable def npvRateWithDates (rate : ℝ) (cashflows : List ℚ)
    (dates : List Date) (dayBasis : ℕ) : ℝ :=
  if rate ≤ -0.999999 then 0
  else
    let d0 := dates.headI
    (cashflows.zip dates).foldl
      (fun total cd =>
        total + (cd.1 : ℝ) / (1 + rate) ^ (((daysBetween d0 cd.2 : ℤ) : ℝ) / (dayBasis : ℝ)))
      0

/-- The bracket-expansion loop of `_irr_bisection_with_dates` (lines 79-84):
`while f_low * f_high > 0 and tries < 12: high *= 2`, returning the final
`high`; the fuel argument is the source's `12 - tries`. -/
noncomputable def expandHigh (f : ℝ → ℝ) (fLow : ℝ) : ℕ → ℝ → ℝ
  | 0, high => high
  | n + 1, high => if fLow * f high > 0 then expandHigh f fLow n (2 * high) else high

/-- The bisection loop of `_irr_bisection_with_dates` (lines 89-102); the fuel
argument is the source's remaining `max_iter` iterations, and falling off the
loop returns the midpoint `(a + b) / 2`. -/
noncomputable def bisectGo (f : ℝ → ℝ) (eps : ℝ) : ℕ → ℝ → ℝ → ℝ → ℝ → ℝ
  | 0, a, b, _, _ => (a + b) / 2
  | n + 1, a, b, fa, fb =>
    let c := (a + b) / 2
    let fc := f c
    if |fc| < eps ∨ |b - a| < eps then c
    else if fa * fc ≤ 0 then bisectGo f eps n a c fa fc
    else bisectGo f eps n c b fc fb

/-- Embeds `_irr_bisection_with_dates` (lines 63-102); the float `nan` return
is `none`. -/
noncomputable def irrBisectionWithDates (cashflows : List ℚ) (dates : List Date)
    (dayBasis : ℕ) (low high eps : ℝ) (maxIter : ℕ) : Option ℝ :=
  let f := fun r => npvRateWithDates r cashflows dates dayBasis
  let fLow := f low
  let high' := expandHigh f fLow 12 high
  if fLow * f high' > 0 then none
  else some (bisectGo f eps maxIter low high' fLow (f high'))

/-- Embeds `compute_taeg` (lines 105-135).  Python's
`if r.payment and r.payment > 0` keeps exactly the rows with positive payment.
The float `nan` sentinel is `none`. -/
noncomputable def computeTaeg (disbursementDate : Date) (amount feeAmount : ℚ)
    (rows : List ScheduleRow) (base : String) : Option ℝ :=
  if amount ≤ 0 then none
  else
    let dayBasis : ℕ := if base = BASE_360 then 360 else 365
    let pays := rows.filter fun r => 0 < r.payment
    let cashflows : List ℚ := (amount - feeAmount) :: pays.map fun r => -r.payment
    let dates : List Date := disbursementDate :: pays.map fun r => r.date
    if cashflows.length < 2 then none
    else irrBisectionWithDates cashflows dates dayBasis 0 5 1e-7 200

/-- With no positive-payment row there is no outflow, so `compute_taeg`
returns the sentinel. -/
theorem computeTaeg_no_outflows (disbursementDate : Date) (amount feeAmount : ℚ)
    (rows : List ScheduleRow) (base : String)
    (h : ∀ r ∈ rows, ¬(0 < r.payment)) :
    computeTaeg disbursementDate amount feeAmount rows base = none := by
  unfold computeTaeg
  rcases le_or_lt amount 0 with hle | hgt
  · rw [if_pos hle]
  · rw [if_neg (not_le.2 hgt)]
    have hfil : rows.filter (fun r => 0 < r.payment) = [] := by
      rw [List.filter_eq_nil_iff]
      intro r hr
      simpa using h r hr
    simp [hfil]

end LoanEngine

/-!  ## C10 — fully deferred schedules  -/

namespace LoanEngine

theorem inFineStep_deferred (p : GenParams) (s : LoopState) (i : ℕ)
    (h : i ≤ p.deferredPeriods) : inFineStep p s i = emitRow p s i 0 0 0 := by
  unfold inFineStep
  rw [if_pos h]

theorem amortStep_deferred (p : GenParams) (s : LoopState) (i : ℕ)
    (h : i ≤ p.deferredPeriods) : amortStep p s i = emitRow p s i 0 0 0 := by
  unfold amortStep
  rw [if_pos h]

theorem annuityStep_deferred (p : GenParams) (s : LoopState) (i : ℕ)
    (h : i ≤ p.deferredPeriods) : annuityStep p s i = emitRow p s i 0 0 0 := by
  unfold annuityStep
  rw [if_pos h]

/-- When every period of the loop lies inside the deferral window, the state
never moves: zero rows everywhere, balance pinned at the amount. -/
theorem run_all_deferred (p : GenParams) {f : LoopState → ℕ → LoopState}
    (hdef : ∀ s i, i ≤ p.deferredPeriods → f s i = emitRow p s i 0 0 0)
    (ha : 0 ≤ p.amount) (hd : p.nInterest ≤ p.deferredPeriods) :
    ∀ k, k ≤ p.nInterest →
      (genRunTo f (initState p) k).balance = p.amount ∧
      (genRunTo f (initState p) k).totalPayment = 0 ∧
      (genRunTo f (initState p) k).totalInterest = 0 ∧
      (genRunTo f (initState p) k).totalPrincipal = 0 ∧
      (genRunTo f (initState p) k).rows.length = k ∧
      ∀ r ∈ (genRunTo f (initState p) k).rows,
        r.payment = 0 ∧ r.interest = 0 ∧ r.principal = 0 ∧ r.balance = p.amount := by
  intro k
  induction k with
  | zero =>
    intro
    exact ⟨rfl, rfl, rfl, rfl, rfl, by intro r hr; simp [genRunTo, initState] at hr⟩
  | succ n ih =>
    intro hk
    obtain ⟨hb, h1, h2, h3, hlen, hall⟩ := ih (Nat.le_of_succ_le hk)
    rw [genRunTo_succ, hdef _ _ (le_trans hk hd)]
    have hbal : max 0 ((genRunTo f (initState p) n).balance - 0) = p.amount := by
      rw [hb, sub_zero]
      exact max_eq_right ha
    refine ⟨hbal, ?_, ?_, ?_, ?_, ?_⟩
    · show (genRunTo f (initState p) n).totalPayment + 0 = 0
      rw [add_zero, h1]
    · show (genRunTo f (initState p) n).totalInterest + 0 = 0
      rw [add_zero, h2]
    · show (genRunTo f (initState p) n).totalPrincipal + 0 = 0
      rw [add_zero, h3]
    · show ((genRunTo f (initState p) n).rows ++ [_]).length = n + 1
      simp [hlen]
    · intro r hr
      rcases List.mem_append.1 hr with hr | hr
      · exact hall r hr
      · rw [List.mem_singleton.1 hr]
        exact ⟨rfl, rfl, rfl, hbal⟩

end LoanEngine

namespace LoanEngine

/-- C10: with every accrual period deferred (`deferred_periods >= N_interest`),
`build_schedule` still returns a non-empty schedule, every row has
`payment = interest = principal = 0` and `balance = amount`, the summary totals
are all zero, and the TAEG attached to such a schedule is the not-a-number
sentinel — the balance is never repaid. -/
theorem buildSchedule_fully_deferred (repaymentType : String)
    (amount annualRate : ℚ) (pcN pfN ifN dN : ℕ) (base : String)
    (disb first : Date) (flat : Bool) (feeAmount : ℚ)
    (out : List ScheduleRow × Option Summary)
    (hmode : repaymentType = TYPE_IN_FINE ∨
      repaymentType = TYPE_CONSTANT_AMORTIZATION ∨ repaymentType = TYPE_ANNUITY)
    (hamount : 0 < amount) (hrate : 0 ≤ annualRate)
    (hpc : 0 < pcN) (hpf : 0 < pfN) (hif : 0 < ifN)
    (hdefer : max 1 (pcN / ifN) ≤ dN)
    (hout : out = buildSchedule repaymentType amount annualRate (pcN : ℤ)
      (pfN : ℤ) base disb first (ifN : ℤ) (dN : ℤ) flat feeAmount) :
    out.1 ≠ [] ∧
    (∀ r ∈ out.1, r.payment = 0 ∧ r.interest = 0 ∧ r.principal = 0 ∧
      r.balance = amount) ∧
    (∃ s, out.2 = some s ∧ s.totalPayment = 0 ∧ s.totalInterest = 0 ∧
      s.totalPrincipal = 0) ∧
    computeTaeg disb amount feeAmount out.1 base = none := by
  subst hout
  have hv1 : ¬(amount ≤ 0 ∨ annualRate < 0 ∨ (pcN : ℤ) ≤ 0) := by
    push_neg
    exact ⟨hamount, hrate, Int.natCast_pos.2 hpc⟩
  have hv2 : ¬((pfN : ℤ) ≤ 0 ∨ (ifN : ℤ) ≤ 0) := by
    push_neg
    exact ⟨Int.natCast_pos.2 hpf, Int.natCast_pos.2 hif⟩
  unfold buildSchedule
  rw [if_neg hv1, if_neg hv2]
  simp only [Int.toNat_natCast]
  rcases hmode with h | h | h <;> subst h
  · rw [if_pos rfl]
    obtain ⟨hb, h1, h2, h3, hlen, hall⟩ :=
      run_all_deferred ⟨amount, annualRate, pcN, pfN, ifN, dN, flat, base, disb,
        first, feeAmount⟩ (inFineStep_deferred _) (le_of_lt hamount) hdefer _ le_rfl
    have hne := List.length_pos.1
      (lt_of_lt_of_eq (lt_of_lt_of_le Nat.one_pos (le_max_left 1 (pcN / ifN))) hlen.symm)
    exact ⟨hne, hall, ⟨_, rfl, h1, h2, h3⟩, computeTaeg_no_outflows _ _ _ _ _
      (fun r hr => by rw [(hall r hr).1]; exact lt_irrefl 0)⟩
  · rw [if_neg (by decide), if_pos rfl]
    obtain ⟨hb, h1, h2, h3, hlen, hall⟩ :=
      run_all_deferred ⟨amount, annualRate, pcN, pfN, ifN, dN, flat, base, disb,
        first, feeAmount⟩ (amortStep_deferred _) (le_of_lt hamount) hdefer _ le_rfl
    have hne := List.length_pos.1
      (lt_of_lt_of_eq (lt_of_lt_of_le Nat.one_pos (le_max_left 1 (pcN / ifN))) hlen.symm)
    exact ⟨hne, hall, ⟨_, rfl, h1, h2, h3⟩, computeTaeg_no_outflows _ _ _ _ _
      (fun r hr => by rw [(hall r hr).1]; exact lt_irrefl 0)⟩
  · rw [if_neg (by decide), if_neg (by decide), if_pos rfl]
    obtain ⟨hb, h1, h2, h3, hlen, hall⟩ :=
      run_all_deferred ⟨amount, annualRate, pcN, pfN, ifN, dN, flat, base, disb,
        first, feeAmount⟩ (annuityStep_deferred _) (le_of_lt hamount) hdefer _ le_rfl
    have hne := List.length_pos.1
      (lt_of_lt_of_eq (lt_of_lt_of_le Nat.one_pos (le_max_left 1 (pcN / ifN))) hlen.symm)
    exact ⟨hne, hall, ⟨_, rfl, h1, h2, h3⟩, computeTaeg_no_outflows _ _ _ _ _
      (fun r hr => by rw [(hall r hr).1]; exact lt_irrefl 0)⟩

/-- Witness for C10: a one-period in-fine loan fully deferred. -/
theorem buildSchedule_fully_deferred_witness :
    (TYPE_IN_FINE = TYPE_IN_FINE ∨ TYPE_IN_FINE = TYPE_CONSTANT_AMORTIZATION ∨
      TYPE_IN_FINE = TYPE_ANNUITY) ∧
    (0 : ℚ) < 100 ∧ (0 : ℚ) ≤ 0 ∧ 0 < 1 ∧ max 1 (1 / 1) ≤ 1 ∧
    ((buildSchedule TYPE_IN_FINE 100 0 ((1 : ℕ) : ℤ) ((1 : ℕ) : ℤ)
        BASE_MENSUELLE_12 ⟨2025, 1, 1⟩ ⟨2025, 2, 1⟩ ((1 : ℕ) : ℤ) ((1 : ℕ) : ℤ)
        false 0).1 ≠ [] ∧
      (∀ r ∈ (buildSchedule TYPE_IN_FINE 100 0 ((1 : ℕ) : ℤ) ((1 : ℕ) : ℤ)
        BASE_MENSUELLE_12 ⟨2025, 1, 1⟩ ⟨2025, 2, 1⟩ ((1 : ℕ) : ℤ) ((1 : ℕ) : ℤ)
        false 0).1, r.payment = 0 ∧ r.interest = 0 ∧ r.principal = 0 ∧
        r.balance = 100) ∧
      (∃ s, (buildSchedule TYPE_IN_FINE 100 0 ((1 : ℕ) : ℤ) ((1 : ℕ) : ℤ)
        BASE_MENSUELLE_12 ⟨2025, 1, 1⟩ ⟨2025, 2, 1⟩ ((1 : ℕ) : ℤ) ((1 : ℕ) : ℤ)
        false 0).2 = some s ∧ s.totalPayment = 0 ∧ s.totalInterest = 0 ∧
        s.totalPrincipal = 0) ∧
      computeTaeg ⟨2025, 1, 1⟩ 100 0
        (buildSchedule TYPE_IN_FINE 100 0 ((1 : ℕ) : ℤ) ((1 : ℕ) : ℤ)
          BASE_MENSUELLE_12 ⟨2025, 1, 1⟩ ⟨2025, 2, 1⟩ ((1 : ℕ) : ℤ) ((1 : ℕ) : ℤ)
          false 0).1 BASE_MENSUELLE_12 = none) :=
  ⟨Or.inl rfl, by norm_num, le_refl 0, Nat.one_pos, by norm_num,
    buildSchedule_fully_deferred TYPE_IN_FINE 100 0 1 1 1 1 BASE_MENSUELLE_12
      ⟨2025, 1, 1⟩ ⟨2025, 2, 1⟩ false 0 _ (Or.inl rfl) (by norm_num) (le_refl 0)
      Nat.one_pos Nat.one_pos Nat.one_pos (by norm_num) rfl⟩

end LoanEngine

/-!  ## C4 — in-fine principal structure  -/

namespace LoanEngine

/-- Before its last period the in-fine loop never moves principal: the balance
stays at the loan amount and every emitted row has `principal = 0`. -/
theorem inFine_prefix (p : GenParams) (ha : 0 ≤ p.amount) :
    ∀ k, k < p.nInterest →
      (inFineRunTo p k).balance = p.amount ∧
      (inFineRunTo p k).rows.length = k ∧
      ∀ r ∈ (inFineRunTo p k).rows, r.principal = 0 := by
  intro k
  induction k with
  | zero => exact fun _ => ⟨rfl, rfl, by intro r hr; simp [inFineRunTo, genRunTo, initState] at hr⟩
  | succ n ih =>
    intro hk
    obtain ⟨hb, hlen, hall⟩ := ih (Nat.lt_of_succ_lt hk)
    have hstep : inFineRunTo p (n + 1) = inFineStep p (inFineRunTo p n) (n + 1) :=
      genRunTo_succ _ _ n
    have hne : n + 1 ≠ p.nInterest := Nat.ne_of_lt hk
    rw [hstep]
    unfold inFineStep emitRow
    have hbal : ∀ q : ℚ, q = 0 → max 0 ((inFineRunTo p n).balance - q) = p.amount := by
      intro q hq
      rw [hq, sub_zero, hb]
      exact max_eq_right ha
    split_ifs with h1 h2 <;>
      exact ⟨hbal 0 rfl, by simpa using hlen, by
        intro r hr
        rcases List.mem_append.1 hr with hr | hr
        · exact hall r hr
        · rw [List.mem_singleton.1 hr]⟩

/-- When the deferral ends before the last period and the last period is a
payment event (`payment_step` divides `N_interest`), the in-fine loop repays
the whole amount in its last row and closes the balance. -/
theorem inFine_last_closes (p : GenParams) (ha : 0 ≤ p.amount)
    (hd : p.deferredPeriods < p.nInterest)
    (hdiv : p.nInterest % p.paymentStep = 0) :
    (inFineRun p).rows ≠ [] ∧
    (∀ r ∈ (inFineRun p).rows.dropLast, r.principal = 0) ∧
    ((inFineRun p).rows.getLast?.map fun r => r.principal) = some p.amount ∧
    ((inFineRun p).rows.getLast?.map fun r => r.balance) = some 0 := by
  have hpos : 0 < p.nInterest := lt_of_le_of_lt (Nat.zero_le _) hd
  obtain ⟨hb, hlen, hall⟩ := inFine_prefix p ha (p.nInterest - 1)
    (Nat.sub_lt hpos Nat.one_pos)
  have hrun : inFineRun p = inFineStep p (inFineRunTo p (p.nInterest - 1)) p.nInterest := by
    unfold inFineRun
    conv_lhs => rw [show p.nInterest = (p.nInterest - 1) + 1 by omega]
    rw [show inFineRunTo p ((p.nInterest - 1) + 1) =
      inFineStep p (inFineRunTo p (p.nInterest - 1)) ((p.nInterest - 1) + 1) from
      genRunTo_succ _ _ _]
    congr 1
    omega
  rw [hrun]
  unfold inFineStep emitRow
  rw [if_neg (by omega), if_pos hdiv, if_pos rfl]
  refine ⟨by simp, ?_, ?_, ?_⟩
  · rw [List.dropLast_concat]
    exact hall
  · rw [List.getLast?_concat]
    simp [hb]
  · rw [List.getLast?_concat]
    simp

end LoanEngine

namespace LoanEngine

unseal Rat.mul Rat.add Rat.sub Rat.inv Rat.ofScientific in
/-- C4 counterexample: two valid in-fine bundles where the last row's principal
is `0`, not the full original amount `100`: (a) `deferred_periods = 1` covers
the whole one-period schedule, (b) `period_count = 3` with payment frequency 2
makes the last period a non-payment period. -/
theorem inFine_principal_counterexample :
    ((buildSchedule TYPE_IN_FINE 100 0 1 1 BASE_MENSUELLE_12 ⟨2025, 1, 1⟩
      ⟨2025, 2, 1⟩ 1 1 false 0).1.getLast?.map fun r => r.principal) = some 0 ∧
    ((buildSchedule TYPE_IN_FINE 100 0 3 2 BASE_MENSUELLE_12 ⟨2025, 1, 1⟩
      ⟨2025, 2, 1⟩ 1 0 false 0).1.getLast?.map fun r => r.principal) = some 0 ∧
    (0 : ℚ) ≠ 100 := by
  refine ⟨by decide, by decide, by decide⟩

/-- C4 (amended): in in-fine mode with valid parameters, *provided the deferral
ends before the last accrual period and `payment_step` divides `N_interest`*
(both automatic when the payment and interest frequencies coincide and the
deferral is shorter than the schedule), every row before the last has
`principal = 0` and the last row's principal is the full original amount. -/
theorem inFine_principal_structure (amount annualRate : ℚ)
    (pcN pfN ifN dN : ℕ) (base : String) (disb first : Date) (flat : Bool)
    (feeAmount : ℚ) (out : List ScheduleRow × Option Summary)
    (hamount : 0 < amount) (hrate : 0 ≤ annualRate)
    (hpc : 0 < pcN) (hpf : 0 < pfN) (hif : 0 < ifN)
    (hd : dN < max 1 (pcN / ifN))
    (hdiv : max 1 (pcN / ifN) % max 1 (pfN / ifN) = 0)
    (hout : out = buildSchedule TYPE_IN_FINE amount annualRate (pcN : ℤ)
      (pfN : ℤ) base disb first (ifN : ℤ) (dN : ℤ) flat feeAmount) :
    out.1 ≠ [] ∧
    (∀ r ∈ out.1.dropLast, r.principal = 0) ∧
    (out.1.getLast?.map fun r => r.principal) = some amount := by
  subst hout
  have hv1 : ¬(amount ≤ 0 ∨ annualRate < 0 ∨ (pcN : ℤ) ≤ 0) := by
    push_neg
    exact ⟨hamount, hrate, Int.natCast_pos.2 hpc⟩
  have hv2 : ¬((pfN : ℤ) ≤ 0 ∨ (ifN : ℤ) ≤ 0) := by
    push_neg
    exact ⟨Int.natCast_pos.2 hpf, Int.natCast_pos.2 hif⟩
  unfold buildSchedule
  rw [if_neg hv1, if_neg hv2, if_pos rfl]
  simp only [Int.toNat_natCast]
  obtain ⟨h1, h2, h3, -⟩ := inFine_last_closes
    ⟨amount, annualRate, pcN, pfN, ifN, dN, flat, base, disb, first, feeAmount⟩
    (le_of_lt hamount) hd hdiv
  exact ⟨h1, h2, h3⟩

/-- Witness for the amended C4 at a concrete two-period in-fine loan. -/
theorem inFine_principal_structure_witness :
    (0 : ℚ) < 100 ∧ (0 : ℚ) ≤ 0 ∧ 0 < 2 ∧ (0 : ℕ) < max 1 (2 / 1) ∧
    max 1 (2 / 1) % max 1 (1 / 1) = 0 ∧
    ((buildSchedule TYPE_IN_FINE 100 0 ((2 : ℕ) : ℤ) ((1 : ℕ) : ℤ)
        BASE_MENSUELLE_12 ⟨2025, 1, 1⟩ ⟨2025, 2, 1⟩ ((1 : ℕ) : ℤ) ((0 : ℕ) : ℤ)
        false 0).1 ≠ [] ∧
      (∀ r ∈ (buildSchedule TYPE_IN_FINE 100 0 ((2 : ℕ) : ℤ) ((1 : ℕ) : ℤ)
        BASE_MENSUELLE_12 ⟨2025, 1, 1⟩ ⟨2025, 2, 1⟩ ((1 : ℕ) : ℤ) ((0 : ℕ) : ℤ)
        false 0).1.dropLast, r.principal = 0) ∧
      ((buildSchedule TYPE_IN_FINE 100 0 ((2 : ℕ) : ℤ) ((1 : ℕ) : ℤ)
        BASE_MENSUELLE_12 ⟨2025, 1, 1⟩ ⟨2025, 2, 1⟩ ((1 : ℕ) : ℤ) ((0 : ℕ) : ℤ)
        false 0).1.getLast?.map fun r => r.principal) = some 100) :=
  ⟨by norm_num, le_refl 0, by norm_num, by decide, by decide,
    inFine_principal_structure 100 0 2 1 1 0 BASE_MENSUELLE_12 ⟨2025, 1, 1⟩
      ⟨2025, 2, 1⟩ false 0 _ (by norm_num) (le_refl 0) (by norm_num)
      Nat.one_pos Nat.one_pos (by decide) (by decide) rfl⟩

end LoanEngine

/-!  ## C1 — closing machinery for constant amortization and annuity  -/

namespace LoanEngine

/-- How a loop body moves `payCount`: bump on non-deferred payment events. -/
def StepPayCount (p : GenParams) (f : LoopState → ℕ → LoopState) : Prop :=
  ∀ s i, (f s i).payCount =
    if i ≤ p.deferredPeriods then s.payCount
    else if i % p.paymentStep = 0 then s.payCount + 1
    else s.payCount

theorem amortStep_payCount (p : GenParams) : StepPayCount p (amortStep p) := by
  intro s i
  unfold amortStep emitRow
  split_ifs <;> rfl

theorem annuityStep_payCount (p : GenParams) : StepPayCount p (annuityStep p) := by
  intro s i
  unfold annuityStep emitRow
  split_ifs <;> rfl

/-- Number of non-deferred payment events among periods `1..k`. -/
def eventCount (p : GenParams) (k : ℕ) : ℕ :=
  k / p.paymentStep - min p.deferredPeriods k / p.paymentStep

theorem run_payCount (p : GenParams) {f : LoopState → ℕ → LoopState}
    (hf : StepPayCount p f) :
    ∀ k, (genRunTo f (initState p) k).payCount = eventCount p k := by
  refine genRunTo_induction f (initState p)
    (fun k s => s.payCount = eventCount p k) (by simp [initState, eventCount]) ?_
  intro k s hk
  rw [hf]
  split_ifs with h1 h2
  · rw [hk]
    unfold eventCount
    rw [min_eq_right (Nat.le_of_succ_le h1), min_eq_right h1, Nat.sub_self, Nat.sub_self]
  · rw [hk]
    unfold eventCount
    have hd : p.deferredPeriods ≤ k := by omega
    rw [min_eq_left hd, min_eq_left (by omega)]
    have hdvd : p.paymentStep ∣ k + 1 := Nat.dvd_of_mod_eq_zero h2
    rw [Nat.succ_div, if_pos hdvd]
    have hmono : p.deferredPeriods / p.paymentStep ≤ k / p.paymentStep :=
      Nat.div_le_div_right hd
    omega
  · rw [hk]
    unfold eventCount
    have hd : p.deferredPeriods ≤ k := by omega
    rw [min_eq_left hd, min_eq_left (by omega)]
    have hdvd : ¬p.paymentStep ∣ k + 1 := fun hdvd =>
      h2 (Nat.dvd_iff_mod_eq_zero.mp hdvd)
    rw [Nat.succ_div, if_neg hdvd]
    omega

/-- The closing payment event (`payment_event_count == n_payments`) zeroes the
balance. -/
def StepCloses (p : GenParams) (f : LoopState → ℕ → LoopState) : Prop :=
  ∀ s i, ¬i ≤ p.deferredPeriods → i % p.paymentStep = 0 →
    s.payCount + 1 = p.nPayments → (f s i).balance = 0

theorem amortStep_closes (p : GenParams) : StepCloses p (amortStep p) := by
  intro s i h1 h2 h3
  unfold amortStep emitRow
  rw [if_neg h1, if_pos h2]
  simp only [if_pos h3]
  show max 0 (s.balance - s.balance) = 0
  simp

theorem annuityStep_closes (p : GenParams) : StepCloses p (annuityStep p) := by
  intro s i h1 h2 h3
  unfold annuityStep emitRow
  rw [if_neg h1, if_pos h2]
  simp only [if_pos h3]
  show max 0 (s.balance - s.balance) = 0
  simp

/-- Invariant: once `payCount` has reached `n_payments` the balance is closed. -/
def ClosesInv (p : GenParams) (s : LoopState) : Prop :=
  0 ≤ s.balance ∧ (p.nPayments ≤ s.payCount → s.balance = 0)

/-- `ClosesInv` is preserved by any loop body with the three step properties. -/
theorem closesInv_step (p : GenParams) {f : LoopState → ℕ → LoopState}
    (hemit : StepEmits p.amount f) (hpc : StepPayCount p f)
    (hclose : StepCloses p f) (ha : 0 ≤ p.amount) :
    ∀ s i, ClosesInv p s → ClosesInv p (f s i) := by
  rintro s i ⟨hb, hcl⟩
  obtain ⟨r, hrows, -, -, hrb, hsb, hprin⟩ := hemit s i
  have habsorb : s.balance = 0 → (f s i).balance = 0 := by
    intro h0
    rw [hsb, hrb, h0, zero_sub]
    exact max_eq_left (neg_nonpos.2 (hprin hb ha))
  refine ⟨by rw [hsb, hrb]; exact le_max_left _ _, ?_⟩
  intro h
  rw [hpc] at h
  by_cases h1 : i ≤ p.deferredPeriods
  · rw [if_pos h1] at h
    exact habsorb (hcl h)
  · rw [if_neg h1] at h
    by_cases h2 : i % p.paymentStep = 0
    · rw [if_pos h2] at h
      by_cases h3 : s.payCount + 1 = p.nPayments
      · exact hclose s i h1 h2 h3
      · exact habsorb (hcl (by omega))
    · rw [if_neg h2] at h
      exact habsorb (hcl h)

/-- If enough payment events occur, the final balance is exactly zero. -/
theorem run_final_balance_zero (p : GenParams) {f : LoopState → ℕ → LoopState}
    (hemit : StepEmits p.amount f) (hpc : StepPayCount p f)
    (hclose : StepCloses p f) (ha : 0 ≤ p.amount)
    (hev : p.nPayments ≤ eventCount p p.nInterest) :
    (genRunTo f (initState p) p.nInterest).balance = 0 := by
  have hinv : ClosesInv p (genRunTo f (initState p) p.nInterest) :=
    genRunTo_induction f (initState p) (fun _ s => ClosesInv p s)
      ⟨ha, fun h => absurd h (by
        show ¬p.nPayments ≤ (initState p).payCount
        have : 1 ≤ p.nPayments := le_max_left _ _
        show ¬p.nPayments ≤ 0
        omega)⟩
      (fun k s h => closesInv_step p hemit hpc hclose ha s (k + 1) h) p.nInterest
  refine hinv.2 ?_
  rw [run_payCount p hpc]
  exact hev

/-- The last row of a non-empty run reports the final state balance. -/
theorem run_last_balance {a : ℚ} {f : LoopState → ℕ → LoopState}
    (hf : StepEmits a f) (s0 : LoopState) (k : ℕ) (hk : 1 ≤ k) :
    ((genRunTo f s0 k).rows.getLast?.map fun r => r.balance) =
      some (genRunTo f s0 k).balance := by
  obtain ⟨m, rfl⟩ : ∃ m, k = m + 1 := ⟨k - 1, by omega⟩
  rw [genRunTo_succ]
  obtain ⟨r, hrows, -, -, -, hbal, -⟩ := hf (genRunTo f s0 m) (m + 1)
  rw [hrows, List.getLast?_concat, hbal]
  rfl

end LoanEngine

namespace LoanEngine

unseal Rat.mul Rat.add Rat.sub Rat.inv Rat.ofScientific in
/-- C1 counterexample: three valid bundles with `deferred_periods < N_interest`
whose final row still carries the whole balance `100` (≠ 0): in-fine with
`N_interest = 3` not a multiple of `payment_step = 2`, and constant
amortization / annuity with `period_count = 10`, interest every 2 months,
payments every 6 months and 3 deferred accrual periods, which leaves no
payment event after the deferral. -/
theorem buildSchedule_final_balance_counterexample :
    ((buildSchedule TYPE_IN_FINE 100 0 3 2 BASE_MENSUELLE_12 ⟨2025, 1, 1⟩
      ⟨2025, 2, 1⟩ 1 0 false 0).1.getLast?.map fun r => r.balance) = some 100 ∧
    ((buildSchedule TYPE_CONSTANT_AMORTIZATION 100 0 10 6 BASE_MENSUELLE_12
      ⟨2025, 1, 1⟩ ⟨2025, 2, 1⟩ 2 3 false 0).1.getLast?.map fun r => r.balance) =
      some 100 ∧
    ((buildSchedule TYPE_ANNUITY 100 0 10 6 BASE_MENSUELLE_12 ⟨2025, 1, 1⟩
      ⟨2025, 2, 1⟩ 2 3 false 0).1.getLast?.map fun r => r.balance) = some 100 ∧
    (100 : ℚ) ≠ 0 := by
  refine ⟨by decide, by decide, by decide, by decide⟩

/-- C1 (amended): for valid parameters with `deferred_periods < N_interest`,
the final row's balance is exactly 0 provided enough payment events remain:
for in-fine, `payment_step` must divide `N_interest`; for constant
amortization and annuity, the number of post-deferral payment events
`N_interest/payment_step - min(deferred, N_interest)/payment_step` must reach
`N_payments`.  (All of these hold automatically when the payment and interest
frequencies coincide.) -/
theorem buildSchedule_final_balance_zero :
    (∀ (amount annualRate : ℚ) (pcN pfN ifN dN : ℕ) (base : String)
      (disb first : Date) (flat : Bool) (feeAmount : ℚ)
      (out : List ScheduleRow × Option Summary),
      0 < amount → 0 ≤ annualRate → 0 < pcN → 0 < pfN → 0 < ifN →
      dN < max 1 (pcN / ifN) →
      max 1 (pcN / ifN) % max 1 (pfN / ifN) = 0 →
      out = buildSchedule TYPE_IN_FINE amount annualRate (pcN : ℤ) (pfN : ℤ)
        base disb first (ifN : ℤ) (dN : ℤ) flat feeAmount →
      (out.1.getLast?.map fun r => r.balance) = some 0) ∧
    (∀ (amount annualRate : ℚ) (pcN pfN ifN dN : ℕ) (base : String)
      (disb first : Date) (flat : Bool) (feeAmount : ℚ)
      (out : List ScheduleRow × Option Summary),
      0 < amount → 0 ≤ annualRate → 0 < pcN → 0 < pfN → 0 < ifN →
      max 1 (pcN / pfN - dN / max 1 (pfN / ifN)) ≤
        max 1 (pcN / ifN) / max 1 (pfN / ifN) -
          min dN (max 1 (pcN / ifN)) / max 1 (pfN / ifN) →
      out = buildSchedule TYPE_CONSTANT_AMORTIZATION amount annualRate
        (pcN : ℤ) (pfN : ℤ) base disb first (ifN : ℤ) (dN : ℤ) flat feeAmount →
      (out.1.getLast?.map fun r => r.balance) = some 0) ∧
    (∀ (amount annualRate : ℚ) (pcN pfN ifN dN : ℕ) (base : String)
      (disb first : Date) (flat : Bool) (feeAmount : ℚ)
      (out : List ScheduleRow × Option Summary),
      0 < amount → 0 ≤ annualRate → 0 < pcN → 0 < pfN → 0 < ifN →
      max 1 (pcN / pfN - dN / max 1 (pfN / ifN)) ≤
        max 1 (pcN / ifN) / max 1 (pfN / ifN) -
          min dN (max 1 (pcN / ifN)) / max 1 (pfN / ifN) →
      out = buildSchedule TYPE_ANNUITY amount annualRate (pcN : ℤ) (pfN : ℤ)
        base disb first (ifN : ℤ) (dN : ℤ) flat feeAmount →
      (out.1.getLast?.map fun r => r.balance) = some 0) := by
  refine ⟨?_, ?_, ?_⟩
  · intro amount annualRate pcN pfN ifN dN base disb first flat feeAmount out
      hamount hrate hpc hpf hif hd hdiv hout
    subst hout
    have hv1 : ¬(amount ≤ 0 ∨ annualRate < 0 ∨ (pcN : ℤ) ≤ 0) := by
      push_neg
      exact ⟨hamount, hrate, Int.natCast_pos.2 hpc⟩
    have hv2 : ¬((pfN : ℤ) ≤ 0 ∨ (ifN : ℤ) ≤ 0) := by
      push_neg
      exact ⟨Int.natCast_pos.2 hpf, Int.natCast_pos.2 hif⟩
    unfold buildSchedule
    rw [if_neg hv1, if_neg hv2, if_pos rfl]
    simp only [Int.toNat_natCast]
    obtain ⟨-, -, -, h4⟩ := inFine_last_closes
      ⟨amount, annualRate, pcN, pfN, ifN, dN, flat, base, disb, first, feeAmount⟩
      (le_of_lt hamount) hd hdiv
    exact h4
  · intro amount annualRate pcN pfN ifN dN base disb first flat feeAmount out
      hamount hrate hpc hpf hif hev hout
    subst hout
    have hv1 : ¬(amount ≤ 0 ∨ annualRate < 0 ∨ (pcN : ℤ) ≤ 0) := by
      push_neg
      exact ⟨hamount, hrate, Int.natCast_pos.2 hpc⟩
    have hv2 : ¬((pfN : ℤ) ≤ 0 ∨ (ifN : ℤ) ≤ 0) := by
      push_neg
      exact ⟨Int.natCast_pos.2 hpf, Int.natCast_pos.2 hif⟩
    unfold buildSchedule
    rw [if_neg hv1, if_neg hv2, if_neg (by decide), if_pos rfl]
    simp only [Int.toNat_natCast]
    exact (run_last_balance (amortStep_stepEmits _) _ _ (le_max_left 1 _)).trans
      (congrArg some (run_final_balance_zero
        ⟨amount, annualRate, pcN, pfN, ifN, dN, flat, base, disb, first, feeAmount⟩
        (amortStep_stepEmits _) (amortStep_payCount _) (amortStep_closes _)
        (le_of_lt hamount) hev))
  · intro amount annualRate pcN pfN ifN dN base disb first flat feeAmount out
      hamount hrate hpc hpf hif hev hout
    subst hout
    have hv1 : ¬(amount ≤ 0 ∨ annualRate < 0 ∨ (pcN : ℤ) ≤ 0) := by
      push_neg
      exact ⟨hamount, hrate, Int.natCast_pos.2 hpc⟩
    have hv2 : ¬((pfN : ℤ) ≤ 0 ∨ (ifN : ℤ) ≤ 0) := by
      push_neg
      exact ⟨Int.natCast_pos.2 hpf, Int.natCast_pos.2 hif⟩
    unfold buildSchedule
    rw [if_neg hv1, if_neg hv2, if_neg (by decide), if_neg (by decide), if_pos rfl]
    simp only [Int.toNat_natCast]
    exact (run_last_balance (annuityStep_stepEmits _) _ _ (le_max_left 1 _)).trans
      (congrArg some (run_final_balance_zero
        ⟨amount, annualRate, pcN, pfN, ifN, dN, flat, base, disb, first, feeAmount⟩
        (annuityStep_stepEmits _) (annuityStep_payCount _) (annuityStep_closes _)
        (le_of_lt hamount) hev))

/-- Witness for the amended C1 at concrete loans in each of the three modes. -/
theorem buildSchedule_final_balance_zero_witness :
    ((0 : ℕ) < max 1 (3 / 1) ∧ max 1 (3 / 1) % max 1 (1 / 1) = 0) ∧
    (max 1 (2 / 1 - 0 / max 1 (1 / 1)) ≤
      max 1 (2 / 1) / max 1 (1 / 1) - min 0 (max 1 (2 / 1)) / max 1 (1 / 1)) ∧
    ((buildSchedule TYPE_IN_FINE 200 0 ((3 : ℕ) : ℤ) ((1 : ℕ) : ℤ)
      BASE_MENSUELLE_12 ⟨2025, 1, 1⟩ ⟨2025, 2, 1⟩ ((1 : ℕ) : ℤ) ((0 : ℕ) : ℤ)
      false 0).1.getLast?.map fun r => r.balance) = some 0 ∧
    ((buildSchedule TYPE_CONSTANT_AMORTIZATION 100 0 ((2 : ℕ) : ℤ) ((1 : ℕ) : ℤ)
      BASE_MENSUELLE_12 ⟨2025, 1, 1⟩ ⟨2025, 2, 1⟩ ((1 : ℕ) : ℤ) ((0 : ℕ) : ℤ)
      false 0).1.getLast?.map fun r => r.balance) = some 0 ∧
    ((buildSchedule TYPE_ANNUITY 100 0 ((2 : ℕ) : ℤ) ((1 : ℕ) : ℤ)
      BASE_MENSUELLE_12 ⟨2025, 1, 1⟩ ⟨2025, 2, 1⟩ ((1 : ℕ) : ℤ) ((0 : ℕ) : ℤ)
      false 0).1.getLast?.map fun r => r.balance) = some 0 :=
  ⟨⟨by decide, by decide⟩, by decide,
    buildSchedule_final_balance_zero.1 200 0 3 1 1 0 BASE_MENSUELLE_12
      ⟨2025, 1, 1⟩ ⟨2025, 2, 1⟩ false 0 _ (by norm_num) (le_refl 0)
      (by norm_num) Nat.one_pos Nat.one_pos (by decide) (by decide) rfl,
    buildSchedule_final_balance_zero.2.1 100 0 2 1 1 0 BASE_MENSUELLE_12
      ⟨2025, 1, 1⟩ ⟨2025, 2, 1⟩ false 0 _ (by norm_num) (le_refl 0)
      (by norm_num) Nat.one_pos Nat.one_pos (by decide) rfl,
    buildSchedule_final_balance_zero.2.2 100 0 2 1 1 0 BASE_MENSUELLE_12
      ⟨2025, 1, 1⟩ ⟨2025, 2, 1⟩ false 0 _ (by norm_num) (le_refl 0)
      (by norm_num) Nat.one_pos Nat.one_pos (by decide) rfl⟩

end LoanEngine

/-!  ## C2 — totals accounting  -/

namespace LoanEngine

/-- The exact accounting identity threaded through every loop:
paid total plus pending carry equals accrued interest plus principal plus any
shortfall retained at a closing annuity event. -/
def TotalsInv (s : LoopState) : Prop :=
  s.totalPayment + s.carry = s.totalInterest + s.totalPrincipal + s.closShort

theorem inFineStep_totalsInv (p : GenParams) :
    ∀ s i, TotalsInv s → TotalsInv (inFineStep p s i) := by
  intro s i h
  unfold TotalsInv at h ⊢
  unfold inFineStep emitRow
  split_ifs <;> dsimp only <;> linarith [h]

theorem amortStep_totalsInv (p : GenParams) :
    ∀ s i, TotalsInv s → TotalsInv (amortStep p s i) := by
  intro s i h
  unfold TotalsInv at h ⊢
  unfold amortStep emitRow
  split_ifs <;> dsimp only <;> linarith [h]

theorem annuityStep_totalsInv (p : GenParams) :
    ∀ s i, TotalsInv s → TotalsInv (annuityStep p s i) := by
  intro s i h
  unfold TotalsInv at h ⊢
  unfold annuityStep emitRow
  split_ifs <;> dsimp only <;>
    first
    | linarith [h]
    | (split_ifs <;> first | (exfalso; tauto) | linarith [h])

theorem run_totalsInv (p : GenParams) {f : LoopState → ℕ → LoopState}
    (hf : ∀ s i, TotalsInv s → TotalsInv (f s i)) :
    ∀ k, TotalsInv (genRunTo f (initState p) k) := by
  refine genRunTo_induction f (initState p) (fun _ s => TotalsInv s) ?_
    (fun k s h => hf s (k + 1) h)
  show (0 : ℚ) + 0 = 0 + 0 + 0
  norm_num

/-- The in-fine loop never touches `carry_interest` (it has none) nor the
shortfall accumulator. -/
theorem inFineRun_carry_zero (p : GenParams) :
    ∀ k, (genRunTo (inFineStep p) (initState p) k).carry = 0 ∧
      (genRunTo (inFineStep p) (initState p) k).closShort = 0 := by
  refine genRunTo_induction (inFineStep p) (initState p)
    (fun _ s => s.carry = 0 ∧ s.closShort = 0) ⟨rfl, rfl⟩ ?_
  rintro k s ⟨h1, h2⟩
  unfold inFineStep emitRow
  split_ifs <;> exact ⟨h1, h2⟩

/-- The constant-amortization loop never records a closing shortfall. -/
theorem amortRun_closShort_zero (p : GenParams) :
    ∀ k, (genRunTo (amortStep p) (initState p) k).closShort = 0 := by
  refine genRunTo_induction (amortStep p) (initState p)
    (fun _ s => s.closShort = 0) rfl ?_
  intro k s h
  unfold amortStep emitRow
  split_ifs <;> exact h

end LoanEngine

namespace LoanEngine

theorem inFineRun_totals (p : GenParams) :
    (inFineRun p).totalPayment + (inFineRun p).carry =
      (inFineRun p).totalInterest + (inFineRun p).totalPrincipal +
        (inFineRun p).closShort :=
  run_totalsInv p (inFineStep_totalsInv p) p.nInterest

theorem amortRun_totals (p : GenParams) :
    (amortRun p).totalPayment + (amortRun p).carry =
      (amortRun p).totalInterest + (amortRun p).totalPrincipal +
        (amortRun p).closShort :=
  run_totalsInv p (amortStep_totalsInv p) p.nInterest

theorem annuityRun_totals (p : GenParams) :
    (annuityRun p).totalPayment + (annuityRun p).carry =
      (annuityRun p).totalInterest + (annuityRun p).totalPrincipal +
        (annuityRun p).closShort :=
  run_totalsInv p (annuityStep_totalsInv p) p.nInterest

theorem inFineRun_carry0 (p : GenParams) :
    (inFineRun p).carry = 0 ∧ (inFineRun p).closShort = 0 :=
  inFineRun_carry_zero p p.nInterest

theorem amortRun_closShort0 (p : GenParams) : (amortRun p).closShort = 0 :=
  amortRun_closShort_zero p p.nInterest

unseal Rat.mul Rat.add Rat.sub Rat.inv Rat.ofScientific in
/-- C2 counterexample: constant amortization, `amount = 1200`, rate `1/10`,
3 periods with interest monthly but payments every 2 months and 2 deferred
periods, leaves the last period's accrued interest `10` carried but never
collected: `total_payment = 0` while `total_interest + total_principal = 10`. -/
theorem buildSchedule_totals_counterexample :
    ((buildSchedule TYPE_CONSTANT_AMORTIZATION 1200 (1 / 10) 3 2
      BASE_MENSUELLE_12 ⟨2025, 1, 1⟩ ⟨2025, 2, 1⟩ 1 2 false 0).2.map fun s =>
        (s.totalPayment, s.totalInterest, s.totalPrincipal)) = some (0, 10, 0) ∧
    (0 : ℚ) ≠ 10 + 0 := by
  refine ⟨by decide, by decide⟩

/-- C2 (amended): the summary of `build_schedule` satisfies the exact
accounting identity `total_payment + uncollected carry = total_interest +
total_principal + shortfall retained at the closing annuity event`.  For
in-fine the carry and shortfall are always zero, so the claimed equality
`total_payment = total_interest + total_principal` holds unconditionally;
for constant amortization the shortfall is zero, so the equality holds
exactly when no carried interest is left uncollected at the end. -/
theorem buildSchedule_totals_identity :
    (∀ (amount annualRate : ℚ) (pcN pfN ifN dN : ℕ) (base : String)
      (disb first : Date) (flat : Bool) (feeAmount : ℚ) (s : Summary),
      (buildSchedule TYPE_IN_FINE amount annualRate (pcN : ℤ) (pfN : ℤ) base
        disb first (ifN : ℤ) (dN : ℤ) flat feeAmount).2 = some s →
      s.totalPayment = s.totalInterest + s.totalPrincipal) ∧
    (∀ (amount annualRate : ℚ) (pcN pfN ifN dN : ℕ) (base : String)
      (disb first : Date) (flat : Bool) (feeAmount : ℚ) (s : Summary),
      (buildSchedule TYPE_CONSTANT_AMORTIZATION amount annualRate (pcN : ℤ)
        (pfN : ℤ) base disb first (ifN : ℤ) (dN : ℤ) flat feeAmount).2 = some s →
      s.totalPayment +
        (amortRun ⟨amount, annualRate, pcN, pfN, ifN, dN, flat, base, disb,
          first, feeAmount⟩).carry =
        s.totalInterest + s.totalPrincipal) ∧
    (∀ (amount annualRate : ℚ) (pcN pfN ifN dN : ℕ) (base : String)
      (disb first : Date) (flat : Bool) (feeAmount : ℚ) (s : Summary),
      (buildSchedule TYPE_ANNUITY amount annualRate (pcN : ℤ) (pfN : ℤ) base
        disb first (ifN : ℤ) (dN : ℤ) flat feeAmount).2 = some s →
      s.totalPayment +
        (annuityRun ⟨amount, annualRate, pcN, pfN, ifN, dN, flat, base, disb,
          first, feeAmount⟩).carry =
        s.totalInterest + s.totalPrincipal +
          (annuityRun ⟨amount, annualRate, pcN, pfN, ifN, dN, flat, base, disb,
            first, feeAmount⟩).closShort) := by
  refine ⟨?_, ?_, ?_⟩
  · intro amount annualRate pcN pfN ifN dN base disb first flat feeAmount s h
    unfold buildSchedule at h
    by_cases h1 : amount ≤ 0 ∨ annualRate < 0 ∨ (pcN : ℤ) ≤ 0
    · rw [if_pos h1] at h
      simp at h
    · rw [if_neg h1] at h
      by_cases h2 : (pfN : ℤ) ≤ 0 ∨ (ifN : ℤ) ≤ 0
      · rw [if_pos h2] at h
        simp at h
      · rw [if_neg h2, if_pos rfl] at h
        simp only [Int.toNat_natCast] at h
        have hs : s = (scheduleInFine ⟨amount, annualRate, pcN, pfN, ifN, dN,
            flat, base, disb, first, feeAmount⟩).2 := by
          simpa using h.symm
        subst hs
        have ht := inFineRun_totals ⟨amount, annualRate, pcN, pfN, ifN, dN,
          flat, base, disb, first, feeAmount⟩
        have hz := inFineRun_carry0 ⟨amount, annualRate, pcN, pfN, ifN, dN,
          flat, base, disb, first, feeAmount⟩
        show (inFineRun ⟨amount, annualRate, pcN, pfN, ifN, dN, flat, base,
          disb, first, feeAmount⟩).totalPayment =
          (inFineRun ⟨amount, annualRate, pcN, pfN, ifN, dN, flat, base, disb,
            first, feeAmount⟩).totalInterest +
          (inFineRun ⟨amount, annualRate, pcN, pfN, ifN, dN, flat, base, disb,
            first, feeAmount⟩).totalPrincipal
        linarith [ht, hz.1, hz.2]
  · intro amount annualRate pcN pfN ifN dN base disb first flat feeAmount s h
    unfold buildSchedule at h
    by_cases h1 : amount ≤ 0 ∨ annualRate < 0 ∨ (pcN : ℤ) ≤ 0
    · rw [if_pos h1] at h
      simp at h
    · rw [if_neg h1] at h
      by_cases h2 : (pfN : ℤ) ≤ 0 ∨ (ifN : ℤ) ≤ 0
      · rw [if_pos h2] at h
        simp at h
      · rw [if_neg h2, if_neg (by decide), if_pos rfl] at h
        simp only [Int.toNat_natCast] at h
        have hs : s = (scheduleConstantAmortization ⟨amount, annualRate, pcN,
            pfN, ifN, dN, flat, base, disb, first, feeAmount⟩).2 := by
          simpa using h.symm
        subst hs
        have ht := amortRun_totals ⟨amount, annualRate, pcN, pfN, ifN, dN,
          flat, base, disb, first, feeAmount⟩
        have hz := amortRun_closShort0 ⟨amount, annualRate, pcN, pfN, ifN, dN,
          flat, base, disb, first, feeAmount⟩
        show (amortRun ⟨amount, annualRate, pcN, pfN, ifN, dN, flat, base,
          disb, first, feeAmount⟩).totalPayment +
          (amortRun ⟨amount, annualRate, pcN, pfN, ifN, dN, flat, base, disb,
            first, feeAmount⟩).carry =
          (amortRun ⟨amount, annualRate, pcN, pfN, ifN, dN, flat, base, disb,
            first, feeAmount⟩).totalInterest +
          (amortRun ⟨amount, annualRate, pcN, pfN, ifN, dN, flat, base, disb,
            first, feeAmount⟩).totalPrincipal
        linarith [ht, hz]
  · intro amount annualRate pcN pfN ifN dN base disb first flat feeAmount s h
    unfold buildSchedule at h
    by_cases h1 : amount ≤ 0 ∨ annualRate < 0 ∨ (pcN : ℤ) ≤ 0
    · rw [if_pos h1] at h
      simp at h
    · rw [if_neg h1] at h
      by_cases h2 : (pfN : ℤ) ≤ 0 ∨ (ifN : ℤ) ≤ 0
      · rw [if_pos h2] at h
        simp at h
      · rw [if_neg h2, if_neg (by decide), if_neg (by decide), if_pos rfl] at h
        simp only [Int.toNat_natCast] at h
        have hs : s = (scheduleAnnuity ⟨amount, annualRate, pcN, pfN, ifN, dN,
            flat, base, disb, first, feeAmount⟩).2 := by
          simpa using h.symm
        subst hs
        have ht := annuityRun_totals ⟨amount, annualRate, pcN, pfN, ifN, dN,
          flat, base, disb, first, feeAmount⟩
        exact ht

unseal Rat.mul Rat.add Rat.sub Rat.inv Rat.ofScientific in
/-- Witness for the amended C2 in each mode at concrete two-period loans. -/
theorem buildSchedule_totals_identity_witness :
    ((buildSchedule TYPE_IN_FINE 100 0 ((1 : ℕ) : ℤ) ((1 : ℕ) : ℤ)
        BASE_MENSUELLE_12 ⟨2025, 1, 1⟩ ⟨2025, 2, 1⟩ ((1 : ℕ) : ℤ) ((0 : ℕ) : ℤ)
        false 0).2 = some ⟨100, 0, 100, 0, none, none, none, none, none⟩ ∧
      (100 : ℚ) = 0 + 100) ∧
    ((buildSchedule TYPE_CONSTANT_AMORTIZATION 100 0 ((2 : ℕ) : ℤ)
        ((1 : ℕ) : ℤ) BASE_MENSUELLE_12 ⟨2025, 1, 1⟩ ⟨2025, 2, 1⟩
        ((1 : ℕ) : ℤ) ((0 : ℕ) : ℤ) false 0).2 =
        some ⟨100, 0, 100, 0, none, none, none, none, none⟩ ∧
      (100 : ℚ) +
        (amortRun ⟨100, 0, 2, 1, 1, 0, false, BASE_MENSUELLE_12, ⟨2025, 1, 1⟩,
          ⟨2025, 2, 1⟩, 0⟩).carry = 0 + 100) ∧
    ((buildSchedule TYPE_ANNUITY 100 0 ((2 : ℕ) : ℤ) ((1 : ℕ) : ℤ)
        BASE_MENSUELLE_12 ⟨2025, 1, 1⟩ ⟨2025, 2, 1⟩ ((1 : ℕ) : ℤ)
        ((0 : ℕ) : ℤ) false 0).2 =
        some ⟨100, 0, 100, 0, some 50, some false, some 1, some 1, some 0⟩ ∧
      (100 : ℚ) +
        (annuityRun ⟨100, 0, 2, 1, 1, 0, false, BASE_MENSUELLE_12,
          ⟨2025, 1, 1⟩, ⟨2025, 2, 1⟩, 0⟩).carry =
        0 + 100 +
          (annuityRun ⟨100, 0, 2, 1, 1, 0, false, BASE_MENSUELLE_12,
            ⟨2025, 1, 1⟩, ⟨2025, 2, 1⟩, 0⟩).closShort) :=
  ⟨⟨by decide,
      buildSchedule_totals_identity.1 100 0 1 1 1 0 BASE_MENSUELLE_12
        ⟨2025, 1, 1⟩ ⟨2025, 2, 1⟩ false 0
        ⟨100, 0, 100, 0, none, none, none, none, none⟩ (by decide)⟩,
    ⟨by decide,
      buildSchedule_totals_identity.2.1 100 0 2 1 1 0 BASE_MENSUELLE_12
        ⟨2025, 1, 1⟩ ⟨2025, 2, 1⟩ false 0
        ⟨100, 0, 100, 0, none, none, none, none, none⟩ (by decide)⟩,
    ⟨by decide,
      buildSchedule_totals_identity.2.2 100 0 2 1 1 0 BASE_MENSUELLE_12
        ⟨2025, 1, 1⟩ ⟨2025, 2, 1⟩ false 0
        ⟨100, 0, 100, 0, some 50, some false, some 1, some 1, some 0⟩
        (by decide)⟩⟩

end LoanEngine

/-!  ## C3 — carry behavior on non-payment periods  -/

namespace LoanEngine

unseal Rat.mul Rat.add Rat.sub Rat.inv Rat.ofScientific in
/-- C3 counterexample: the in-fine generator does *not* emit `payment = 0` on
non-payment accrual periods — it collects the accrued interest immediately
(line 305 of the source: `payment = interest`).  Here period 1 of a 2-period
in-fine loan with payments every 2 months pays its 10 of interest. -/
theorem carry_counterexample :
    ((buildSchedule TYPE_IN_FINE 1200 (1 / 10) 2 2 BASE_MENSUELLE_12
      ⟨2025, 1, 1⟩ ⟨2025, 2, 1⟩ 1 0 false 0).1.head?.map fun r =>
        (r.payment, r.interest)) = some (10, 10) ∧
    (10 : ℚ) ≠ 0 := by
  refine ⟨by decide, by decide⟩

/-- C3 (amended): in the constant-amortization and annuity generators, every
non-deferred accrual period that is not a payment event emits a row with
`payment = principal = 0` and adds the period's accrued interest to the
running carry (a plain sum, never compounded); at the next payment event the
carry is added to the interest due and reset — in the annuity generator it is
reset to the interest shortfall (zero when the installment covers the
interest due).  The in-fine generator instead keeps no carry and collects
interest immediately: its non-payment rows have `payment = interest`. -/
theorem carry_step_behavior :
    (∀ (p : GenParams) (s : LoopState) (i : ℕ),
      p.deferredPeriods < i → i % p.paymentStep ≠ 0 →
      (amortStep p s i).carry = s.carry +
        interestAmount s.balance p.annualRate p.base i s.current s.prevDate
          p.disb p.intFreqM ∧
      (amortStep p s i).rows = s.rows ++
        [⟨i, s.current, 0,
          interestAmount s.balance p.annualRate p.base i s.current s.prevDate
            p.disb p.intFreqM, 0, max 0 (s.balance - 0)⟩]) ∧
    (∀ (p : GenParams) (s : LoopState) (i : ℕ),
      p.deferredPeriods < i → i % p.paymentStep = 0 →
      (amortStep p s i).carry = 0 ∧
      (amortStep p s i).rows = s.rows ++
        [⟨i, s.current,
          (if s.payCount + 1 = p.nPayments then s.balance
            else p.amount / (p.nPayments : ℚ)) +
          (interestAmount s.balance p.annualRate p.base i s.current s.prevDate
            p.disb p.intFreqM + s.carry),
          interestAmount s.balance p.annualRate p.base i s.current s.prevDate
            p.disb p.intFreqM,
          (if s.payCount + 1 = p.nPayments then s.balance
            else p.amount / (p.nPayments : ℚ)),
          max 0 (s.balance -
            if s.payCount + 1 = p.nPayments then s.balance
            else p.amount / (p.nPayments : ℚ))⟩]) ∧
    (∀ (p : GenParams) (s : LoopState) (i : ℕ),
      p.deferredPeriods < i → i % p.paymentStep ≠ 0 →
      (annuityStep p s i).carry = s.carry +
        interestAmount (if p.flat then p.amount else s.balance) p.annualRate
          p.base i s.current s.prevDate p.disb p.intFreqM ∧
      (annuityStep p s i).rows = s.rows ++
        [⟨i, s.current, 0,
          interestAmount (if p.flat then p.amount else s.balance) p.annualRate
            p.base i s.current s.prevDate p.disb p.intFreqM, 0,
          max 0 (s.balance - 0)⟩]) ∧
    (∀ (p : GenParams) (s : LoopState) (i : ℕ),
      p.deferredPeriods < i → i % p.paymentStep = 0 →
      (annuityStep p s i).carry =
        (if annuityPaymentConst p <
            interestAmount (if p.flat then p.amount else s.balance) p.annualRate
              p.base i s.current s.prevDate p.disb p.intFreqM + s.carry then
          interestAmount (if p.flat then p.amount else s.balance) p.annualRate
            p.base i s.current s.prevDate p.disb p.intFreqM + s.carry -
            annuityPaymentConst p
        else 0)) ∧
    (∀ (p : GenParams) (s : LoopState) (i : ℕ),
      p.deferredPeriods < i → i % p.paymentStep ≠ 0 →
      (inFineStep p s i).carry = s.carry ∧
      (inFineStep p s i).rows = s.rows ++
        [⟨i, s.current,
          interestAmount s.balance p.annualRate p.base i s.current s.prevDate
            p.disb p.intFreqM,
          interestAmount s.balance p.annualRate p.base i s.current s.prevDate
            p.disb p.intFreqM, 0, max 0 (s.balance - 0)⟩]) := by
  refine ⟨?_, ?_, ?_, ?_, ?_⟩
  · intro p s i hd hev
    unfold amortStep emitRow
    rw [if_neg (not_le.mpr hd), if_neg hev]
    exact ⟨rfl, rfl⟩
  · intro p s i hd hev
    unfold amortStep emitRow
    rw [if_neg (not_le.mpr hd), if_pos hev]
    exact ⟨rfl, rfl⟩
  · intro p s i hd hev
    unfold annuityStep emitRow
    rw [if_neg (not_le.mpr hd), if_neg hev]
    exact ⟨rfl, rfl⟩
  · intro p s i hd hev
    unfold annuityStep emitRow
    rw [if_neg (not_le.mpr hd), if_pos hev]
  · intro p s i hd hev
    unfold inFineStep emitRow
    rw [if_neg (not_le.mpr hd), if_neg hev]
    exact ⟨rfl, rfl⟩

end LoanEngine

namespace LoanEngine

unseal Rat.mul Rat.add Rat.sub Rat.inv Rat.ofScientific in
/-- Witness for the amended C3 at a concrete state (`balance = 1200`,
`carry = 5`) of a loan with interest monthly and payments every 2 months:
period 1 is a non-payment period, period 2 a payment event. -/
theorem carry_step_behavior_witness :
    ((0 : ℕ) < 1 ∧ 1 % max 1 (2 / 1) ≠ 0 ∧ 2 % max 1 (2 / 1) = 0) ∧
    (amortStep ⟨1200, 1 / 10, 2, 2, 1, 0, false, BASE_MENSUELLE_12,
      ⟨2025, 1, 1⟩, ⟨2025, 2, 1⟩, 0⟩
      ⟨1200, 5, 0, ⟨2025, 2, 1⟩, none, 0, 0, 0, 0, []⟩ 1).carry = 15 ∧
    (amortStep ⟨1200, 1 / 10, 2, 2, 1, 0, false, BASE_MENSUELLE_12,
      ⟨2025, 1, 1⟩, ⟨2025, 2, 1⟩, 0⟩
      ⟨1200, 5, 0, ⟨2025, 2, 1⟩, none, 0, 0, 0, 0, []⟩ 1).rows =
      [⟨1, ⟨2025, 2, 1⟩, 0, 10, 0, 1200⟩] ∧
    (amortStep ⟨1200, 1 / 10, 2, 2, 1, 0, false, BASE_MENSUELLE_12,
      ⟨2025, 1, 1⟩, ⟨2025, 2, 1⟩, 0⟩
      ⟨1200, 5, 0, ⟨2025, 2, 1⟩, none, 0, 0, 0, 0, []⟩ 2).carry = 0 ∧
    (amortStep ⟨1200, 1 / 10, 2, 2, 1, 0, false, BASE_MENSUELLE_12,
      ⟨2025, 1, 1⟩, ⟨2025, 2, 1⟩, 0⟩
      ⟨1200, 5, 0, ⟨2025, 2, 1⟩, none, 0, 0, 0, 0, []⟩ 2).rows =
      [⟨2, ⟨2025, 2, 1⟩, 1215, 10, 1200, 0⟩] ∧
    (annuityStep ⟨1200, 1 / 10, 2, 2, 1, 0, false, BASE_MENSUELLE_12,
      ⟨2025, 1, 1⟩, ⟨2025, 2, 1⟩, 0⟩
      ⟨1200, 5, 0, ⟨2025, 2, 1⟩, none, 0, 0, 0, 0, []⟩ 1).carry = 15 ∧
    (annuityStep ⟨1200, 1 / 10, 2, 2, 1, 0, false, BASE_MENSUELLE_12,
      ⟨2025, 1, 1⟩, ⟨2025, 2, 1⟩, 0⟩
      ⟨1200, 5, 0, ⟨2025, 2, 1⟩, none, 0, 0, 0, 0, []⟩ 2).carry = 0 ∧
    (inFineStep ⟨1200, 1 / 10, 2, 2, 1, 0, false, BASE_MENSUELLE_12,
      ⟨2025, 1, 1⟩, ⟨2025, 2, 1⟩, 0⟩
      ⟨1200, 5, 0, ⟨2025, 2, 1⟩, none, 0, 0, 0, 0, []⟩ 1).carry = 5 ∧
    (inFineStep ⟨1200, 1 / 10, 2, 2, 1, 0, false, BASE_MENSUELLE_12,
      ⟨2025, 1, 1⟩, ⟨2025, 2, 1⟩, 0⟩
      ⟨1200, 5, 0, ⟨2025, 2, 1⟩, none, 0, 0, 0, 0, []⟩ 1).rows =
      [⟨1, ⟨2025, 2, 1⟩, 10, 10, 0, 1200⟩] :=
  ⟨⟨by decide, by decide, by decide⟩,
    ((carry_step_behavior.1 _ _ 1 (by decide) (by decide)).1).trans (by decide),
    ((carry_step_behavior.1 _ _ 1 (by decide) (by decide)).2).trans (by decide),
    ((carry_step_behavior.2.1 _ _ 2 (by decide) (by decide)).1),
    ((carry_step_behavior.2.1 _ _ 2 (by decide) (by decide)).2).trans (by decide),
    ((carry_step_behavior.2.2.1 _ _ 1 (by decide) (by decide)).1).trans (by decide),
    (carry_step_behavior.2.2.2.1 _ _ 2 (by decide) (by decide)).trans (by decide),
    ((carry_step_behavior.2.2.2.2 _ _ 1 (by decide) (by decide)).1),
    ((carry_step_behavior.2.2.2.2 _ _ 1 (by decide) (by decide)).2).trans (by decide)⟩

end LoanEngine

/-!  ## C7 — when the rate solver returns the sentinel  -/

namespace LoanEngine

/-- The expansion loop finds no sign change exactly when the bracket product
stays positive at every doubled endpoint it examines. -/
theorem expandHigh_pos_iff (f : ℝ → ℝ) (fLow : ℝ) :
    ∀ (n : ℕ) (high : ℝ),
      fLow * f (expandHigh f fLow n high) > 0 ↔
        ∀ j ≤ n, fLow * f (2 ^ j * high) > 0 := by
  intro n
  induction n with
  | zero =>
    intro high
    constructor
    · intro h j hj
      have hj0 : j = 0 := Nat.le_zero.1 hj
      subst hj0
      simpa [expandHigh] using h
    · intro h
      simpa [expandHigh] using h 0 le_rfl
  | succ n ih =>
    intro high
    unfold expandHigh
    by_cases h0 : fLow * f high > 0
    · rw [if_pos h0, ih (2 * high)]
      constructor
      · intro h j hj
        cases j with
        | zero => simpa using h0
        | succ m =>
          have hm := h m (by omega)
          have heq : (2 : ℝ) ^ m * (2 * high) = 2 ^ (m + 1) * high := by ring
          rwa [heq] at hm
      · intro h j hj
        have hm := h (j + 1) (by omega)
        have heq : (2 : ℝ) ^ (j + 1) * high = 2 ^ j * (2 * high) := by ring
        rwa [heq] at hm
    · rw [if_neg h0]
      constructor
      · intro h
        exact absurd h h0
      · intro h
        exact absurd (by simpa using h 0 (Nat.zero_le _)) h0

/-- The bisection wrapper returns the sentinel exactly when the product stays
positive after up to 12 doublings of the high endpoint. -/
theorem irrBisection_none_iff (cashflows : List ℚ) (dates : List Date)
    (dayBasis : ℕ) (low high eps : ℝ) (maxIter : ℕ) :
    irrBisectionWithDates cashflows dates dayBasis low high eps maxIter = none ↔
      ∀ j ≤ 12,
        npvRateWithDates low cashflows dates dayBasis *
          npvRateWithDates (2 ^ j * high) cashflows dates dayBasis > 0 := by
  unfold irrBisectionWithDates
  by_cases h : npvRateWithDates low cashflows dates dayBasis *
      npvRateWithDates
        (expandHigh (fun r => npvRateWithDates r cashflows dates dayBasis)
          (npvRateWithDates low cashflows dates dayBasis) 12 high)
        cashflows dates dayBasis > 0
  · rw [if_pos h]
    exact iff_of_true rfl
      ((expandHigh_pos_iff (fun r => npvRateWithDates r cashflows dates dayBasis)
        (npvRateWithDates low cashflows dates dayBasis) 12 high).1 h)
  · rw [if_neg h]
    refine iff_of_false (by simp) fun hall => h ?_
    exact (expandHigh_pos_iff (fun r => npvRateWithDates r cashflows dates dayBasis)
      (npvRateWithDates low cashflows dates dayBasis) 12 high).2 hall

/-- C7: for positive loan amounts, `compute_taeg` returns the not-a-number
sentinel exactly when fewer than two cash flows exist (i.e. no schedule row
has positive payment) or the NPV bracket product stays positive at `low = 0`
and every doubled high endpoint `5 * 2^j`, `j ≤ 12`; otherwise the bisection
always returns a (finite) rate, and no exception can be raised since the
embedding is a total function. -/
theorem computeTaeg_none_iff (disb : Date) (amount feeAmount : ℚ)
    (rows : List ScheduleRow) (base : String) (hamount : 0 < amount) :
    computeTaeg disb amount feeAmount rows base = none ↔
      ((amount - feeAmount) ::
        (rows.filter fun r => 0 < r.payment).map fun r => -r.payment).length < 2 ∨
      ∀ j ≤ 12,
        npvRateWithDates 0
          ((amount - feeAmount) ::
            (rows.filter fun r => 0 < r.payment).map fun r => -r.payment)
          (disb :: (rows.filter fun r => 0 < r.payment).map fun r => r.date)
          (if base = BASE_360 then 360 else 365) *
        npvRateWithDates (2 ^ j * 5)
          ((amount - feeAmount) ::
            (rows.filter fun r => 0 < r.payment).map fun r => -r.payment)
          (disb :: (rows.filter fun r => 0 < r.payment).map fun r => r.date)
          (if base = BASE_360 then 360 else 365) > 0 := by
  unfold computeTaeg
  rw [if_neg (not_le.2 hamount)]
  by_cases hlen : ((amount - feeAmount) ::
      (rows.filter fun r => 0 < r.payment).map fun r => -r.payment).length < 2
  · rw [if_pos hlen]
    exact iff_of_true rfl (Or.inl hlen)
  · rw [if_neg hlen]
    exact (irrBisection_none_iff _ _ _ 0 5 _ 200).trans (or_iff_right hlen).symm

/-- Witness for C7 with an empty schedule (no outflows). -/
theorem computeTaeg_none_iff_witness :
    (0 : ℚ) < 1 ∧
    (computeTaeg ⟨2025, 1, 1⟩ 1 0 [] BASE_MENSUELLE_12 = none ↔
      (((1 : ℚ) - 0) ::
        (([] : List ScheduleRow).filter fun r => 0 < r.payment).map
          fun r => -r.payment).length < 2 ∨
      ∀ j ≤ 12,
        npvRateWithDates 0
          (((1 : ℚ) - 0) ::
            (([] : List ScheduleRow).filter fun r => 0 < r.payment).map
              fun r => -r.payment)
          (⟨2025, 1, 1⟩ ::
            (([] : List ScheduleRow).filter fun r => 0 < r.payment).map
              fun r => r.date)
          (if BASE_MENSUELLE_12 = BASE_360 then 360 else 365) *
        npvRateWithDates (2 ^ j * 5)
          (((1 : ℚ) - 0) ::
            (([] : List ScheduleRow).filter fun r => 0 < r.payment).map
              fun r => -r.payment)
          (⟨2025, 1, 1⟩ ::
            (([] : List ScheduleRow).filter fun r => 0 < r.payment).map
              fun r => r.date)
          (if BASE_MENSUELLE_12 = BASE_360 then 360 else 365) > 0) :=
  ⟨by norm_num,
    computeTaeg_none_iff ⟨2025, 1, 1⟩ 1 0 [] BASE_MENSUELLE_12 (by norm_num)⟩

end LoanEngine

/-!  ## C6 — the generalized "specific" mode (modelled from the spec)  -/

namespace LoanEngine

/-- Modelled from the spec: the fourth mode tag `TYPE_SPECIFIC_REPAYMENT`.  It
is imported from the engine by `src/app.py` (lines 8-12) and offered in its
mode selector, but its definition is missing from `src/loan_engine.py`; the
spec (§3, §4.3) lists it as the fourth enumerated repayment mode.  The tag's
exact string value is unobservable; only its distinctness from the other three
tags matters. -/
def TYPE_SPECIFIC_REPAYMENT : String := "SPECIFIC_REPAYMENT"

/-- Modelled from the spec: `build_schedule`'s dispatch of the specific /
generalized mode, which is absent from `src/loan_engine.py` (only its caller
`src/app.py` survives).  Per spec §2 and §4.3 the specific mode is the
generalized annuity-style generator — deferral, mismatched payment/interest
frequencies, flat flag, fee — whose summary additionally reports the solved
constant installment, with an IRR-based TEG derived from its rows (§4.4);
`src/app.py` lines 881-930 exercise exactly these extra parameters and read
the solved rate.  Every other mode falls through to the faithful
`buildSchedule`. -/
def buildScheduleSpec (repaymentType : String) (amount annualRate : ℚ)
    (periodCount paymentFrequencyMonths : ℤ) (base : String) (disb first : Date)
    (interestFrequencyMonths deferredPeriods : ℤ) (flat : Bool)
    (feeAmount : ℚ) : List ScheduleRow × Option Summary :=
  if repaymentType = TYPE_SPECIFIC_REPAYMENT then
    if amount ≤ 0 ∨ annualRate < 0 ∨ periodCount ≤ 0 then ([], none)
    else if paymentFrequencyMonths ≤ 0 ∨ interestFrequencyMonths ≤ 0 then ([], none)
    else
      let p : GenParams := ⟨amount, annualRate, periodCount.toNat,
        paymentFrequencyMonths.toNat, interestFrequencyMonths.toNat,
        deferredPeriods.toNat, flat, base, disb, first, feeAmount⟩
      ((scheduleAnnuity p).1, some (scheduleAnnuity p).2)
  else
    buildSchedule repaymentType amount annualRate periodCount
      paymentFrequencyMonths base disb first interestFrequencyMonths
      deferredPeriods flat feeAmount

end LoanEngine

namespace LoanEngine

unseal Rat.mul Rat.add Rat.sub Rat.inv Rat.ofScientific in
/-- C6: for a valid bundle in the fourth ("specific") mode — modelled from the
spec, see `buildScheduleSpec` — the facade dispatches to the generalized
generator and returns a non-empty schedule whose summary reports the solved
constant installment (here `1000`, the solved `payment_const` of the one-period
loan), and the IRR-based TEG computed from its rows is defined (not the
sentinel). -/
theorem buildScheduleSpec_specific_mode :
    (buildScheduleSpec TYPE_SPECIFIC_REPAYMENT 1000 0 1 1 BASE_MENSUELLE_12
      ⟨2025, 1, 1⟩ ⟨2025, 2, 1⟩ 1 0 false 0).1 ≠ [] ∧
    ((buildScheduleSpec TYPE_SPECIFIC_REPAYMENT 1000 0 1 1 BASE_MENSUELLE_12
      ⟨2025, 1, 1⟩ ⟨2025, 2, 1⟩ 1 0 false 0).2.map fun s => s.paymentConst) =
      some (some (annuityPaymentConst ⟨1000, 0, 1, 1, 1, 0, false,
        BASE_MENSUELLE_12, ⟨2025, 1, 1⟩, ⟨2025, 2, 1⟩, 0⟩)) ∧
    annuityPaymentConst ⟨1000, 0, 1, 1, 1, 0, false, BASE_MENSUELLE_12,
      ⟨2025, 1, 1⟩, ⟨2025, 2, 1⟩, 0⟩ = 1000 ∧
    (computeTaeg ⟨2025, 1, 1⟩ 1000 0
      (buildScheduleSpec TYPE_SPECIFIC_REPAYMENT 1000 0 1 1 BASE_MENSUELLE_12
        ⟨2025, 1, 1⟩ ⟨2025, 2, 1⟩ 1 0 false 0).1
      BASE_MENSUELLE_12).isSome = true := by
  have hrows : (buildScheduleSpec TYPE_SPECIFIC_REPAYMENT 1000 0 1 1
      BASE_MENSUELLE_12 ⟨2025, 1, 1⟩ ⟨2025, 2, 1⟩ 1 0 false 0).1 =
      [⟨1, ⟨2025, 2, 1⟩, 1000, 0, 1000, 0⟩] := by decide
  refine ⟨by decide, by decide, by decide, ?_⟩
  rw [hrows]
  unfold computeTaeg
  rw [if_neg (by norm_num)]
  have hfil : ([⟨1, ⟨2025, 2, 1⟩, 1000, 0, 1000, 0⟩] :
      List ScheduleRow).filter (fun r => 0 < r.payment) =
      [⟨1, ⟨2025, 2, 1⟩, 1000, 0, 1000, 0⟩] := by
    simp [List.filter]
  simp only [hfil, List.map, List.length]
  rw [if_neg (by norm_num),
    if_neg (show ¬(BASE_MENSUELLE_12 = BASE_360) by decide)]
  unfold irrBisectionWithDates
  have hflow : npvRateWithDates 0 [1000 - 0, -1000]
      [⟨2025, 1, 1⟩, ⟨2025, 2, 1⟩] 365 = 0 := by
    unfold npvRateWithDates
    rw [if_neg (by norm_num)]
    simp only [List.headI, List.zip, List.zipWith, List.foldl]
    norm_num [Real.one_rpow]
  simp only [hflow, zero_mul]
  rw [if_neg (lt_irrefl (0 : ℝ))]
  rfl

end LoanEngine
